import Mathlib

/-
Verification of the suretime library's core model against its sources.

The Python sources are shallowly embedded: machine integers are Nat/Int,
Python `%` and `//` on a positive divisor are `Int.emod`/`Int.ediv`,
fallible operations return `Option` or `Except`.  `datetime` wall-clock
values and their conversions are modeled with CPython's own calendar
algorithms (`_ymd2ord`, `_ord2ymd`, `_days_before_year`, ...), so that
datetime arithmetic, formatting and parsing are executable and exact.
-/

namespace Suretime

/-! ## CPython proleptic-Gregorian calendar (`datetime` module internals) -/

/-- Python `datetime._DAYS_IN_MONTH[m]` (index 0 unused). -/
def daysInMonthTable (m : Nat) : Nat :=
  match m with
  | 1 => 31 | 2 => 28 | 3 => 31 | 4 => 30 | 5 => 31 | 6 => 30
  | 7 => 31 | 8 => 31 | 9 => 30 | 10 => 31 | 11 => 30 | 12 => 31
  | _ => 0

/-- Python `datetime._DAYS_BEFORE_MONTH[m]`. -/
def daysBeforeMonthTable (m : Nat) : Nat :=
  match m with
  | 1 => 0 | 2 => 31 | 3 => 59 | 4 => 90 | 5 => 120 | 6 => 151
  | 7 => 181 | 8 => 212 | 9 => 243 | 10 => 273 | 11 => 304 | 12 => 334
  | _ => 365

/-- Python `datetime._is_leap(year)`. -/
def isLeap (y : Nat) : Bool :=
  y % 4 == 0 && (y % 100 != 0 || y % 400 == 0)

/-- Python `datetime._days_in_month(year, month)`. -/
def daysInMonth (y m : Nat) : Nat :=
  if m = 2 ∧ isLeap y then 29 else daysInMonthTable m

/-- Python `datetime._days_before_month(year, month)`. -/
def daysBeforeMonth (y m : Nat) : Nat :=
  daysBeforeMonthTable m + (if 2 < m ∧ isLeap y then 1 else 0)

/-- Python `datetime._days_before_year(year)`. -/
def daysBeforeYear (y : Nat) : Nat :=
  (y - 1) * 365 + (y - 1) / 4 - (y - 1) / 100 + (y - 1) / 400

/-- Python `date.toordinal()`, i.e. `datetime._ymd2ord(y, m, d)`. -/
def toordinal (y m d : Nat) : Nat :=
  daysBeforeYear y + daysBeforeMonth y m + d

/-- Month/day recovery step of Python `datetime._ord2ymd`, applied to the
0-based day index `r` within a year whose leap status is `leap`. -/
def ord2ymdMonthDay (leap : Bool) (r : Nat) : Nat × Nat :=
  let month := (r + 50) / 32
  let preceding := daysBeforeMonthTable month + (if 2 < month ∧ leap then 1 else 0)
  if r < preceding then
    let month' := month - 1
    let preceding' :=
      preceding - (daysInMonthTable month' + (if month' = 2 ∧ leap then 1 else 0))
    (month', r - preceding' + 1)
  else
    (month, r - preceding + 1)

/-- Python `datetime._ord2ymd(n)`, the algorithm behind `date.fromordinal`
and the renormalization done by datetime arithmetic. -/
def ord2ymd (n : Nat) : Nat × Nat × Nat :=
  let n0 := n - 1
  let n400 := n0 / 146097
  let r1 := n0 % 146097
  let n100 := r1 / 36524
  let r2 := r1 % 36524
  let n4 := r2 / 1461
  let r3 := r2 % 1461
  let n1 := r3 / 365
  let r4 := r3 % 365
  let year := n400 * 400 + n100 * 100 + n4 * 4 + n1 + 1
  if n1 = 4 ∨ n100 = 4 then
    (year - 1, 12, 31)
  else
    let md := ord2ymdMonthDay (n1 == 3 && (n4 != 24 || n100 == 3)) r4
    (year, md.1, md.2)

theorem daysBeforeYear_decomp (a b c d : Nat) (hb : b ≤ 3) (hc : c ≤ 24) (hd : d ≤ 3) :
    daysBeforeYear (a * 400 + b * 100 + c * 4 + d + 1)
      = a * 146097 + b * 36524 + c * 1461 + d * 365 := by
  unfold daysBeforeYear
  omega

theorem isLeap_decomp (a b c d : Nat) (hb : b ≤ 3) (hc : c ≤ 24) (hd : d ≤ 3) :
    isLeap (a * 400 + b * 100 + c * 4 + d + 1) = (d == 3 && (c != 24 || b == 3)) := by
  unfold isLeap
  rw [Bool.eq_iff_iff]
  simp only [Bool.and_eq_true, Bool.or_eq_true, beq_iff_eq, bne_iff_ne, ne_eq]
  omega

set_option maxRecDepth 4000 in
/-- Correctness of the month/day recovery, checked finitely over the
2 × 365 possible (leap, day-index) pairs. -/
theorem ord2ymdMonthDay_correct : ∀ (leap : Bool), ∀ r < 365,
    daysBeforeMonthTable (ord2ymdMonthDay leap r).1 +
        (if 2 < (ord2ymdMonthDay leap r).1 ∧ leap then 1 else 0) +
        (ord2ymdMonthDay leap r).2 = r + 1 ∧
      1 ≤ (ord2ymdMonthDay leap r).1 ∧ (ord2ymdMonthDay leap r).1 ≤ 12 ∧
      1 ≤ (ord2ymdMonthDay leap r).2 ∧
      (ord2ymdMonthDay leap r).2 ≤
        daysInMonthTable (ord2ymdMonthDay leap r).1 +
          (if (ord2ymdMonthDay leap r).1 = 2 ∧ leap then 1 else 0) := by
  decide

theorem isLeap_mul4 (a b c : Nat) (_hb : b ≤ 3) (hc : c ≤ 23) :
    isLeap (a * 400 + b * 100 + c * 4 + 4) = true := by
  simp only [isLeap, Bool.and_eq_true, Bool.or_eq_true, beq_iff_eq, bne_iff_ne, ne_eq]
  omega

theorem isLeap_mul400 (a : Nat) : isLeap (a * 400 + 400) = true := by
  simp only [isLeap, Bool.and_eq_true, Bool.or_eq_true, beq_iff_eq, bne_iff_ne, ne_eq]
  omega

theorem toordinal_dec31 (y : Nat) :
    toordinal y 12 31 = daysBeforeYear y + 365 + (if isLeap y then 1 else 0) := by
  have h12 : daysBeforeMonthTable 12 = 334 := rfl
  simp only [toordinal, daysBeforeMonth, h12]
  have hiff : (2 < 12 ∧ isLeap y = true) ↔ (isLeap y = true) := by simp
  rw [if_congr hiff rfl rfl]
  split <;> omega

theorem daysBeforeYear_mul4 (a b c : Nat) (hb : b ≤ 3) (hc : c ≤ 23) :
    daysBeforeYear (a * 400 + b * 100 + c * 4 + 4)
      = a * 146097 + b * 36524 + c * 1461 + 1095 := by
  unfold daysBeforeYear
  omega

theorem daysBeforeYear_mul400 (a : Nat) :
    daysBeforeYear (a * 400 + 400) = (a + 1) * 146097 - 366 := by
  unfold daysBeforeYear
  omega

/-- `_ord2ymd` is a right inverse of `toordinal`: CPython's date
renormalization preserves ordinal day numbers. -/
theorem toordinal_ord2ymd (n : Nat) (hn : 1 ≤ n) :
    toordinal (ord2ymd n).1 (ord2ymd n).2.1 (ord2ymd n).2.2 = n := by
  unfold ord2ymd
  simp only []
  set n0 := n - 1 with hn0
  set n400 := n0 / 146097 with h400
  set r1 := n0 % 146097 with hr1
  set n100 := r1 / 36524 with h100
  set r2 := r1 % 36524 with hr2
  set n4 := r2 / 1461 with h4
  set r3 := r2 % 1461 with hr3
  set n1 := r3 / 365 with h1
  set r4 := r3 % 365 with hr4
  have hb1 : r1 < 146097 := by omega
  have hb2 : r2 < 36524 := by omega
  have hb3 : r3 < 1461 := by omega
  have hb4 : r4 < 365 := by omega
  split
  · rename_i hsp
    dsimp only
    rcases hsp with hsp | hsp
    · -- n1 = 4: last day of a 4-year sub-cycle, always December 31 of a leap year
      have hc : n4 ≤ 23 := by omega
      have hb : n100 ≤ 3 := by omega
      have hy : n400 * 400 + n100 * 100 + n4 * 4 + n1 + 1 - 1
          = n400 * 400 + n100 * 100 + n4 * 4 + 4 := by omega
      rw [hy, toordinal_dec31, isLeap_mul4 n400 n100 n4 hb hc, if_pos rfl,
        daysBeforeYear_mul4 n400 n100 n4 hb hc]
      omega
    · -- n100 = 4: last day of a 400-year cycle
      have hz4 : n4 = 0 := by omega
      have hz1 : n1 = 0 := by omega
      have hy : n400 * 400 + n100 * 100 + n4 * 4 + n1 + 1 - 1
          = n400 * 400 + 400 := by omega
      rw [hy, toordinal_dec31, isLeap_mul400 n400, if_pos rfl, daysBeforeYear_mul400]
      omega
  · rename_i hsp
    dsimp only
    have hd : n1 ≤ 3 := by omega
    have hb : n100 ≤ 3 := by omega
    have hc : n4 ≤ 24 := by omega
    simp only [toordinal, daysBeforeMonth]
    rw [daysBeforeYear_decomp n400 n100 n4 n1 hb hc hd,
      isLeap_decomp n400 n100 n4 n1 hb hc hd]
    have hmd := ord2ymdMonthDay_correct (n1 == 3 && (n4 != 24 || n100 == 3)) r4 hb4
    omega

/-! ## Wall-clock readings and datetime arithmetic -/

/-- The stored field values of a Python `datetime.datetime` (without its
tzinfo): what `dt.year`, ..., `dt.microsecond` return. -/
structure Wall where
  year : Nat
  month : Nat
  day : Nat
  hour : Nat
  minute : Nat
  second : Nat
  microsecond : Nat
deriving DecidableEq, Repr

/-- The field ranges Python's `datetime` constructor enforces. -/
def ValidWall (w : Wall) : Prop :=
  1 ≤ w.year ∧ w.year ≤ 9999 ∧ 1 ≤ w.month ∧ w.month ≤ 12 ∧
    1 ≤ w.day ∧ w.day ≤ daysInMonth w.year w.month ∧
    w.hour < 24 ∧ w.minute < 60 ∧ w.second < 60 ∧ w.microsecond < 1000000

instance (w : Wall) : Decidable (ValidWall w) := by
  unfold ValidWall
  infer_instance

def usPerDay : Int := 86400000000

/-- Microseconds since midnight. -/
def todUs (w : Wall) : Nat :=
  ((w.hour * 60 + w.minute) * 60 + w.second) * 1000000 + w.microsecond

/-- The proleptic-Gregorian timestamp of a wall reading, in microseconds
from 0001-01-01T00:00:00 (`toordinal` scaled into the sub-day fields);
Python's datetime subtraction and comparison reduce to this quantity. -/
def wallUs (w : Wall) : Int :=
  (toordinal w.year w.month w.day : Int) * usPerDay + todUs w

/-- Rebuild a wall reading from an ordinal day `o` and time-of-day `t` µs,
as CPython's datetime arithmetic does via `_ord2ymd`. -/
def wallOfParts (o : Nat) (t : Nat) : Wall :=
  { year := (ord2ymd o).1, month := (ord2ymd o).2.1, day := (ord2ymd o).2.2
    hour := t / 3600000000, minute := t / 60000000 % 60
    second := t / 1000000 % 60, microsecond := t % 1000000 }

/-- Python `datetime ± timedelta` with the delta expressed in microseconds:
renormalizes through the day ordinal exactly as CPython's `datetime.__add__`
does, and fails (Python `OverflowError`) when the result leaves the
supported year range 1..9999 (`MAXORDINAL = 3652059`). -/
def addUs (w : Wall) (delta : Int) : Option Wall :=
  let total : Int := wallUs w + delta
  let o : Int := total / usPerDay
  let t : Int := total % usPerDay
  if 1 ≤ o ∧ o ≤ 3652059 then some (wallOfParts o.toNat t.toNat) else none

theorem wallUs_wallOfParts (o t : Nat) (ho : 1 ≤ o) (ht : t < 86400000000) :
    wallUs (wallOfParts o t) = o * usPerDay + t := by
  unfold wallUs wallOfParts todUs
  simp only
  rw [toordinal_ord2ymd o ho]
  have husPerDay : usPerDay = (86400000000 : Int) := rfl
  rw [husPerDay]
  push_cast
  have h1 : t / 3600000000 < 24 := by omega
  omega

/-- Datetime-plus-timedelta shifts the wall timestamp by exactly the delta
whenever it does not overflow. -/
theorem addUs_wallUs (w : Wall) (d : Int) (w' : Wall) (h : addUs w d = some w') :
    wallUs w' = wallUs w + d := by
  unfold addUs at h
  simp only [show usPerDay = (86400000000 : Int) from rfl] at h
  split at h
  · rename_i hcond
    injection h with h
    subst h
    rw [wallUs_wallOfParts _ _ (by omega) (by omega)]
    simp only [show usPerDay = (86400000000 : Int) from rfl]
    omega
  · exact absurd h (by simp)

end Suretime

namespace Suretime

/-! ## Aware datetimes, timezones, timedeltas -/

/-- An aware Python `datetime` as used by suretime: its stored wall fields
plus the UTC offset (in microseconds) that its tzinfo reports for it.
Python compares, subtracts and converts aware datetimes through the UTC
timestamp `wallUs wall - offUs` (`utcUs` below). -/
structure PyDatetime where
  wall : Wall
  offUs : Int
deriving DecidableEq, Repr

/-- The UTC timestamp (µs from 0001-01-01T00:00:00 UTC) an aware datetime
denotes; Python's documented semantics of aware-datetime comparison and
subtraction reduce them to this quantity. -/
def utcUs (dt : PyDatetime) : Int :=
  wallUs dt.wall - dt.offUs

/-- A loaded `zoneinfo.ZoneInfo`: its key and its UTC-offset rule in whole
seconds, as a function of the UTC timestamp (µs). -/
structure ZoneInfo where
  key : String
  offAt : Int → Int

/-- Python `datetime + timedelta` on an aware datetime: wall-clock
arithmetic, tzinfo (and hence the reported offset) kept. -/
def pyAddTimedelta (dt : PyDatetime) (deltaUs : Int) : Option PyDatetime :=
  (addUs dt.wall deltaUs).map (fun w' => ⟨w', dt.offUs⟩)

/-- Python `dt.astimezone(tz)`: subtract the own offset to reach UTC, then
`tz.fromutc` adds the offset `tz` reports at that UTC instant.  `none`
models Python's `OverflowError` when the result leaves the datetime range. -/
def astimezone (dt : PyDatetime) (z : ZoneInfo) : Option (PyDatetime × ZoneInfo) :=
  match addUs dt.wall (-dt.offUs) with
  | none => none
  | some uw =>
    let offSec := z.offAt (wallUs uw)
    match addUs uw (offSec * 1000000) with
    | none => none
    | some w' => some (⟨w', offSec * 1000000⟩, z)

/-- `astimezone` preserves the UTC instant. -/
theorem astimezone_utcUs (dt : PyDatetime) (z : ZoneInfo) (r : PyDatetime × ZoneInfo)
    (h : astimezone dt z = some r) : utcUs r.1 = utcUs dt := by
  unfold astimezone at h
  cases huw : addUs dt.wall (-dt.offUs) with
  | none => rw [huw] at h; exact absurd h (by simp)
  | some uw =>
    rw [huw] at h
    simp only at h
    cases hw' : addUs uw (z.offAt (wallUs uw) * 1000000) with
    | none => rw [hw'] at h; exact absurd h (by simp)
    | some w' =>
      rw [hw'] at h
      injection h with h
      subst h
      have h1 := addUs_wallUs _ _ _ huw
      have h2 := addUs_wallUs _ _ _ hw'
      unfold utcUs
      simp only
      omega

/-- A Python `timedelta`, normalized to its total length in microseconds;
its stored `microseconds` field is the nonnegative sub-second remainder of
the floor decomposition, i.e. `us.emod 1000000`. -/
structure Timedelta where
  us : Int
deriving DecidableEq, Repr

/-- The `timedelta.microseconds` component (0 ≤ _ < 1000000). -/
def Timedelta.microseconds (d : Timedelta) : Int :=
  d.us % 1000000

def Timedelta.neg (d : Timedelta) : Timedelta :=
  ⟨-d.us⟩

/-! ## Clocks (suretime `_clock.py`) -/

/-- `_clock.ClockInfo`; the float `resolution` field is modeled as an exact
rational. -/
structure ClockInfo where
  adjustable : Bool
  implementation : Option String
  monotonic : Bool
  resolution : Option Rat
  is_ntp : Bool
  server : Option String
  is_epoch : Bool
deriving DecidableEq, Repr

/-- `_clock.Clock`: a clock descriptor; dataclass equality is field-wise. -/
structure Clock where
  name : String
  const : Option Int
  info : Option ClockInfo
deriving DecidableEq, Repr

/-- `_clock.ClockTime`: a clock sample. -/
structure ClockTime where
  nanos : Int
  clock : Clock
deriving DecidableEq, Repr

/-- `_generic_zone.GenericTimezone` (carried as provenance only). -/
structure GenericTimezone where
  name : String
  territory : Option String
  ianas : List String
deriving DecidableEq, Repr

/-- The suretime exception classes raised by the modeled code paths, plus
the Python built-in exceptions those paths can raise. -/
inductive PyErr where
  | invalidInterval
  | clockMismatch
  | mappedTzNotFound
  | mappedTzNotUnique
  | datetimeParse
  | typeError
  | stopIteration
  | lookupError
  | overflowError
  | valueError
  | zoneInfoNotFound
deriving DecidableEq, Repr

end Suretime

namespace Suretime

/-! ## Tagged datetimes (`_model.TaggedDatetime`) -/

/-- `_model.TaggedDatetime`: an aware wall-clock datetime, its resolved
IANA zone, its provenance, and a clock sample. -/
structure TaggedDatetime where
  dt : PyDatetime
  zone : ZoneInfo
  source : Option GenericTimezone
  clock_ns : Int
  clock : Clock

/-- `TaggedDatetime.__lt__`: compares `(self.utc.dt, self.clock_ns)` with
`(other.utc.dt, other.clock_ns)`; aware datetimes compare by UTC instant. -/
def tdLt (a b : TaggedDatetime) : Prop :=
  utcUs a.dt < utcUs b.dt ∨ (utcUs a.dt = utcUs b.dt ∧ a.clock_ns < b.clock_ns)

/-- `TaggedDatetime.__eq__`: equal UTC instants and equal clock ticks. -/
def tdEq (a b : TaggedDatetime) : Prop :=
  utcUs a.dt = utcUs b.dt ∧ a.clock_ns = b.clock_ns

/-- `functools.total_ordering` fills in `__gt__` as
`not (self < other or self == other)`. -/
def tdGt (a b : TaggedDatetime) : Prop :=
  ¬ (tdLt a b ∨ tdEq a b)

instance (a b : TaggedDatetime) : Decidable (tdLt a b) :=
  if h : utcUs a.dt < utcUs b.dt ∨ (utcUs a.dt = utcUs b.dt ∧ a.clock_ns < b.clock_ns)
  then .isTrue h else .isFalse h

instance (a b : TaggedDatetime) : Decidable (tdEq a b) :=
  if h : utcUs a.dt = utcUs b.dt ∧ a.clock_ns = b.clock_ns
  then .isTrue h else .isFalse h

instance (a b : TaggedDatetime) : Decidable (tdGt a b) :=
  if h : tdLt a b ∨ tdEq a b then .isFalse (fun hn => hn h) else .isTrue h

/-- `_model.TaggedInterval` (fields `start` and `end`). -/
structure TaggedInterval where
  start : TaggedDatetime
  end_ : TaggedDatetime

/-- `TaggedInterval.__post_init__`: reject `start.utc > end.utc`, then
reject reversed clock readings; otherwise the dataclass is constructed. -/
def mkTaggedInterval (s e : TaggedDatetime) : Except PyErr TaggedInterval :=
  if tdGt s e then .error .invalidInterval
  else if s.clock_ns > e.clock_ns then .error .invalidInterval
  else .ok ⟨s, e⟩

/-- `TaggedInterval.real_nanos`. -/
def realNanos (i : TaggedInterval) : Int :=
  i.end_.clock_ns - i.start.clock_ns

/-- `TaggedDatetime.at_nanos`: shift the wall clock by the tick delta
floor-divided into microseconds, and adopt the new tick reading. -/
def at_nanos (t : TaggedDatetime) (ns : Int) : Except PyErr TaggedDatetime :=
  match pyAddTimedelta t.dt ((ns - t.clock_ns) / 1000) with
  | none => .error .overflowError
  | some dt' => .ok { t with dt := dt', clock_ns := ns }

/-- `TaggedDatetime.at_clock`: requires the same clock descriptor, then
delegates to `at_nanos`. -/
def at_clock (t : TaggedDatetime) (c : ClockTime) : Except PyErr TaggedDatetime :=
  if c.clock ≠ t.clock then .error .clockMismatch
  else at_nanos t c.nanos

/-- `TaggedDatetime.__add__`: wall shift by the delta, but `clock_ns` is set
to `delta.microseconds * 1000`. -/
def tdAdd (t : TaggedDatetime) (d : Timedelta) : Except PyErr TaggedDatetime :=
  match pyAddTimedelta t.dt d.us with
  | none => .error .overflowError
  | some dt' =>
    .ok { dt := dt', zone := t.zone, source := t.source
          clock_ns := d.microseconds * 1000, clock := t.clock }

/-- `TaggedDatetime.__sub__`: defined as `self + (-delta)`. -/
def tdSub (t : TaggedDatetime) (d : Timedelta) : Except PyErr TaggedDatetime :=
  tdAdd t d.neg

/-! ## Durations (`_model._Duration`) -/

/-- The `Ymdhmsun` named tuple (fields are Python ints). -/
structure Ymdhmsun where
  Y : Int
  M : Int
  D : Int
  h : Int
  m : Int
  s : Int
  u : Int
  n : Int
deriving DecidableEq, Repr

/-- `_Duration.ymdhmun` applied to the wall fields of `_start`/`_end`. -/
def ymdhmunW (start end_ : Wall) : Ymdhmsun :=
  { Y := (end_.year : Int) - start.year
    M := (end_.month : Int) - start.month
    D := (end_.day : Int) - start.day
    h := (end_.hour : Int) - start.hour
    m := (end_.minute : Int) - start.minute
    s := (end_.second : Int) - start.second
    u := ((end_.microsecond : Int) - start.microsecond) % 1000
    n := 0 }

/-- Modelled from the spec sentence for C9: the claimed decomposition by
*direct field-wise subtraction* of every calendar field including the
sub-second field, with no normalization. -/
def ymdhmunFieldwiseSpec (start end_ : Wall) : Ymdhmsun :=
  { Y := (end_.year : Int) - start.year
    M := (end_.month : Int) - start.month
    D := (end_.day : Int) - start.day
    h := (end_.hour : Int) - start.hour
    m := (end_.minute : Int) - start.minute
    s := (end_.second : Int) - start.second
    u := (end_.microsecond : Int) - start.microsecond
    n := 0 }

/-- `_model._Duration` (fields `_start`, `_end`, both aware datetimes). -/
structure PyDuration where
  startDt : PyDatetime
  endDt : PyDatetime
deriving DecidableEq, Repr

/-- `_Duration.__post_init__`: rejects a negative `microseconds`, where
`microseconds` is the exact length in µs of `_end - _start` (aware
subtraction; `total_seconds()*1e6` is exact at these magnitudes). -/
def mkDuration (s e : PyDatetime) : Except PyErr PyDuration :=
  if utcUs e - utcUs s < 0 then .error .valueError else .ok ⟨s, e⟩

/-- `Duration.ymdhmun` reads the stored datetimes' wall fields. -/
def PyDuration.ymdhmun (d : PyDuration) : Ymdhmsun :=
  ymdhmunW d.startDt.wall d.endDt.wall

end Suretime

namespace Suretime

theorem pyAddTimedelta_spec (dt : PyDatetime) (δ : Int) (dt' : PyDatetime)
    (h : pyAddTimedelta dt δ = some dt') :
    wallUs dt'.wall = wallUs dt.wall + δ ∧ dt'.offUs = dt.offUs := by
  unfold pyAddTimedelta at h
  cases hw : addUs dt.wall δ with
  | none => rw [hw] at h; exact absurd h (by simp)
  | some w' =>
    rw [hw] at h
    simp only [Option.map_some'] at h
    cases h
    exact ⟨addUs_wallUs _ _ _ hw, rfl⟩

/-! ## Fixtures used by witnesses -/

def wallW : Wall := ⟨2021, 1, 1, 0, 0, 0, 0⟩

def zoneW : ZoneInfo := ⟨"Etc/UTC", fun _ => 0⟩

/-- The guaranteed-fallback clock `Clock("monotonic_ns", None, None)`. -/
def clockW : Clock := ⟨"monotonic_ns", none, none⟩

def taggedW (ns : Int) : TaggedDatetime :=
  ⟨⟨wallW, 0⟩, zoneW, none, ns, clockW⟩

end Suretime

/-- C1: constructing `TaggedInterval(start, end)` raises `InvalidInterval`
exactly when end's UTC instant is before start's or end's `clock_ns` is
below start's; otherwise it succeeds, and every successfully constructed
interval has `real_nanos ≥ 0`. -/
theorem C1_tagged_interval_invariant (s e : Suretime.TaggedDatetime) :
    (Suretime.mkTaggedInterval s e = .error .invalidInterval ↔
      (Suretime.utcUs e.dt < Suretime.utcUs s.dt ∨ e.clock_ns < s.clock_ns)) ∧
    (Suretime.mkTaggedInterval s e = .ok ⟨s, e⟩ ↔
      ¬ (Suretime.utcUs e.dt < Suretime.utcUs s.dt ∨ e.clock_ns < s.clock_ns)) ∧
    (∀ i, Suretime.mkTaggedInterval s e = .ok i → 0 ≤ Suretime.realNanos i) := by
  unfold Suretime.mkTaggedInterval
  split
  · rename_i h1
    unfold Suretime.tdGt Suretime.tdLt Suretime.tdEq at h1
    have hR : Suretime.utcUs e.dt < Suretime.utcUs s.dt ∨ e.clock_ns < s.clock_ns := by
      omega
    exact ⟨iff_of_true rfl hR, iff_of_false (by simp) (fun hn => hn hR),
      fun i hok => absurd hok (by simp)⟩
  · rename_i h1
    unfold Suretime.tdGt Suretime.tdLt Suretime.tdEq at h1
    split
    · rename_i h2
      have hR : Suretime.utcUs e.dt < Suretime.utcUs s.dt ∨ e.clock_ns < s.clock_ns :=
        Or.inr (by omega)
      exact ⟨iff_of_true rfl hR, iff_of_false (by simp) (fun hn => hn hR),
        fun i hok => absurd hok (by simp)⟩
    · rename_i h2
      have hnR : ¬ (Suretime.utcUs e.dt < Suretime.utcUs s.dt ∨ e.clock_ns < s.clock_ns) := by
        omega
      refine ⟨iff_of_false (by simp) hnR, iff_of_true rfl hnR, fun i hok => ?_⟩
      simp only [Except.ok.injEq] at hok
      subst hok
      unfold Suretime.realNanos
      dsimp only
      omega

/-- Witness for C1 at a concrete interval 0 → 5 ticks. -/
theorem C1_tagged_interval_invariant_witness :
    0 ≤ Suretime.realNanos ⟨Suretime.taggedW 0, Suretime.taggedW 5⟩ :=
  (C1_tagged_interval_invariant (Suretime.taggedW 0) (Suretime.taggedW 5)).2.2
    ⟨Suretime.taggedW 0, Suretime.taggedW 5⟩ rfl

/-- C7: `at_clock` raises `ClockMismatch` whenever the sample's clock
descriptor differs from the receiver's; with equal descriptors it shifts
the wall-clock datetime by the tick delta floor-divided into microseconds
and adopts the new tick count. -/
theorem C7_at_clock_spec (t : Suretime.TaggedDatetime) (c : Suretime.ClockTime) :
    (c.clock ≠ t.clock → Suretime.at_clock t c = .error .clockMismatch) ∧
    (c.clock = t.clock → ∀ r, Suretime.at_clock t c = .ok r →
      Suretime.wallUs r.dt.wall
          = Suretime.wallUs t.dt.wall + (c.nanos - t.clock_ns) / 1000 ∧
        (c.nanos - t.clock_ns) / 1000 = Int.fdiv (c.nanos - t.clock_ns) 1000 ∧
        r.clock_ns = c.nanos ∧ r.dt.offUs = t.dt.offUs ∧
        r.zone = t.zone ∧ r.source = t.source ∧ r.clock = t.clock) := by
  constructor
  · intro hne
    unfold Suretime.at_clock
    rw [if_pos hne]
  · intro heq r hok
    unfold Suretime.at_clock at hok
    rw [if_neg (fun hne => hne heq)] at hok
    unfold Suretime.at_nanos at hok
    cases hadd : Suretime.pyAddTimedelta t.dt ((c.nanos - t.clock_ns) / 1000) with
    | none => rw [hadd] at hok; exact absurd hok (by simp)
    | some dt' =>
      rw [hadd] at hok
      simp only [Except.ok.injEq] at hok
      obtain ⟨hw, hoff⟩ := Suretime.pyAddTimedelta_spec _ _ _ hadd
      subst hok
      exact ⟨hw, (Int.fdiv_eq_ediv _ (by norm_num)).symm, rfl, hoff, rfl, rfl, rfl⟩

/-- Witness for C7: mismatching clock errors; matching clock shifts by
5000 ns → 5 µs. -/
theorem C7_at_clock_spec_witness :
    Suretime.at_clock (Suretime.taggedW 0) ⟨5000, ⟨"other", none, none⟩⟩
        = .error .clockMismatch ∧
      Suretime.wallUs
          (Suretime.at_clock (Suretime.taggedW 0) ⟨5000, Suretime.clockW⟩
            |>.toOption |>.get (by rfl)).dt.wall
        = Suretime.wallUs (Suretime.taggedW 0).dt.wall + (5000 - 0) / 1000 :=
  ⟨(C7_at_clock_spec (Suretime.taggedW 0) ⟨5000, ⟨"other", none, none⟩⟩).1 (by decide),
    ((C7_at_clock_spec (Suretime.taggedW 0) ⟨5000, Suretime.clockW⟩).2 rfl _ rfl).1⟩

/-- C10: `TaggedDatetime + timedelta` shifts the wall clock by the delta
but sets the result's `clock_ns` to `delta.microseconds * 1000` (only the
sub-second microsecond component of the delta, unrelated to the original
clock reading), and `t - d` is `t + (-d)`. -/
theorem C10_timedelta_add_spec (t : Suretime.TaggedDatetime) (d : Suretime.Timedelta) :
    (∀ r, Suretime.tdAdd t d = .ok r →
      Suretime.wallUs r.dt.wall = Suretime.wallUs t.dt.wall + d.us ∧
        r.clock_ns = d.us % 1000000 * 1000 ∧
        r.dt.offUs = t.dt.offUs ∧ r.zone = t.zone ∧ r.source = t.source ∧
        r.clock = t.clock) ∧
    Suretime.tdSub t d = Suretime.tdAdd t (Suretime.Timedelta.neg d) := by
  constructor
  · intro r hok
    unfold Suretime.tdAdd at hok
    cases hadd : Suretime.pyAddTimedelta t.dt d.us with
    | none => rw [hadd] at hok; exact absurd hok (by simp)
    | some dt' =>
      rw [hadd] at hok
      simp only [Except.ok.injEq] at hok
      obtain ⟨hw, hoff⟩ := Suretime.pyAddTimedelta_spec _ _ _ hadd
      subst hok
      exact ⟨hw, rfl, hoff, rfl, rfl, rfl⟩
  · rfl

/-- The concrete result of `taggedW 7 + timedelta(-1 µs)`. -/
def Suretime.taggedC10r : Suretime.TaggedDatetime :=
  ⟨⟨⟨2020, 12, 31, 23, 59, 59, 999999⟩, 0⟩, Suretime.zoneW, none, 999999000,
    Suretime.clockW⟩

/-- Witness for C10 at a −1 µs delta: the wall moves back 1 µs while
`clock_ns` becomes 999999 × 1000. -/
theorem C10_timedelta_add_spec_witness :
    Suretime.taggedC10r.clock_ns = (-1 : Int) % 1000000 * 1000 :=
  ((C10_timedelta_add_spec (Suretime.taggedW 7) ⟨-1⟩).1 Suretime.taggedC10r (by rfl)).2.1

/-! ## C9 fixtures -/

namespace Suretime

def wallC9s : Wall := ⟨2021, 1, 1, 0, 0, 0, 0⟩

def wallC9e : Wall := ⟨2021, 1, 1, 0, 0, 0, 500000⟩

end Suretime

/-- C9 fails on the code: the sub-second field of `ymdhmun` is the
microsecond difference reduced mod 1000, not the direct field-wise
difference; at a 500000 µs gap the code yields `u = 0`. -/
theorem C9_counterexample :
    (Suretime.mkDuration ⟨Suretime.wallC9s, 0⟩ ⟨Suretime.wallC9e, 0⟩).toOption
        = some ⟨⟨Suretime.wallC9s, 0⟩, ⟨Suretime.wallC9e, 0⟩⟩ ∧
      (Suretime.PyDuration.ymdhmun ⟨⟨Suretime.wallC9s, 0⟩, ⟨Suretime.wallC9e, 0⟩⟩).u = 0 ∧
      (Suretime.ymdhmunFieldwiseSpec Suretime.wallC9s Suretime.wallC9e).u = 500000 ∧
      Suretime.PyDuration.ymdhmun ⟨⟨Suretime.wallC9s, 0⟩, ⟨Suretime.wallC9e, 0⟩⟩
        ≠ Suretime.ymdhmunFieldwiseSpec Suretime.wallC9s Suretime.wallC9e := by
  refine ⟨by decide, by decide, by decide, by decide⟩

/-- C9 amended: every field of `ymdhmun` is the direct field-wise
difference except the sub-second field, which is that difference mod 1000,
and the nanosecond field, which is always 0. -/
theorem C9_ymdhmun_amended (a b : Suretime.Wall) :
    Suretime.ymdhmunW a b =
      { Suretime.ymdhmunFieldwiseSpec a b with
          u := ((b.microsecond : Int) - a.microsecond) % 1000, n := 0 } := rfl

namespace Suretime

/-! ## Zone mapping and lookups (`_zone.Zones`, `_cache._build`)

The mapping is `dict[str, dict[str, frozenset]]`.  A freshly built mapping
holds `zoneinfo.ZoneInfo` objects in its leaf sets (`_cache._build`); a
mapping decoded from the JSON cache holds plain strings.  `ZoneInfo`
instances are cached per key, so their identity-based equality and hashing
coincide with key equality, but they define no ordering: `sorted` over two
or more of them raises `TypeError`. -/

/-- A `zoneinfo.ZoneInfo` object as an element of the mapping's leaf sets:
equality (identity of the cached instance) is key equality. -/
structure ZIObj where
  key : String
deriving DecidableEq, Repr

/-- Python `sorted` on ZoneInfo objects: no comparison is needed for fewer
than two elements; otherwise `<` is unsupported and `TypeError` is raised. -/
def pySortedZI (l : List ZIObj) : Except PyErr (List ZIObj) :=
  match l with
  | [] => .ok []
  | [x] => .ok [x]
  | _ => .error .typeError

/-- Adding one element to a Python set (identity-modulo-key equality); the
representative order of our set model is first-insertion order, standing in
for the unspecified iteration order of a Python set. -/
def pySetAdd (acc : List ZIObj) (v : ZIObj) : List ZIObj :=
  if v ∈ acc then acc else acc ++ [v]

/-- Python `set.update(vals)`. -/
def pySetUpdate (acc : List ZIObj) (vals : List ZIObj) : List ZIObj :=
  vals.foldl pySetAdd acc

/-- Python `set(l)` / `frozenset(l)`. -/
def pySetOfList (l : List ZIObj) : List ZIObj :=
  pySetUpdate [] l

/-- Association-list model of a Python `dict` with string keys. -/
def PyDict (α : Type) : Type := List (String × α)

def dictGet {α : Type} (d : PyDict α) (k : String) : Option α :=
  match d with
  | [] => none
  | (k', v') :: rest => if k' = k then some v' else dictGet rest k

def dictSet {α : Type} (d : PyDict α) (k : String) (v : α) : PyDict α :=
  match d with
  | [] => [(k, v)]
  | (k', v') :: rest => if k' = k then (k', v) :: rest else (k', v') :: dictSet rest k v

def dictContains {α : Type} (d : PyDict α) (k : String) : Bool :=
  (dictGet d k).isSome

/-- The mapping built by `_cache._build`: zone name → territory →
frozenset of `ZoneInfo`. -/
def TzMapZI : Type := PyDict (PyDict (List ZIObj))

/-- The raw (pre-set, pre-sort) pool of matches `Zones.all` works from, per
its territory dispatch: `None`/`"any"` pools every territory's value;
`"primary"` reads territory `"001"`; anything else is an exact territory
lookup. -/
def matchPool (mp : TzMapZI) (zone : String) (territory : Option String) : List ZIObj :=
  match territory with
  | none => ((dictGet mp zone).getD []).foldl (fun acc p => acc ++ p.2) []
  | some t =>
    if t = "any" then ((dictGet mp zone).getD []).foldl (fun acc p => acc ++ p.2) []
    else
      let t' := if t = "primary" then "001" else t
      (dictGet ((dictGet mp zone).getD []) t').getD []

/-- `Zones.all` over a freshly built mapping (ZoneInfo-valued leaf sets):
the union branch accumulates a `set` and the result is
`frozenset(sorted(matches))`. -/
def zonesAllZI (mp : TzMapZI) (zone : String) (territory : Option String) :
    Except PyErr (List ZIObj) :=
  match territory with
  | none =>
    (pySortedZI (((dictGet mp zone).getD []).foldl (fun acc p => pySetUpdate acc p.2) [])).map
      pySetOfList
  | some t =>
    if t = "any" then
      (pySortedZI (((dictGet mp zone).getD []).foldl (fun acc p => pySetUpdate acc p.2) [])).map
        pySetOfList
    else
      let t' := if t = "primary" then "001" else t
      (pySortedZI (pySetOfList ((dictGet ((dictGet mp zone).getD []) t').getD []))).map
        pySetOfList

/-- `Zones.first` over a built mapping: `next(iter(all(zone, territory)))`;
on an empty frozenset `next` raises `StopIteration`. -/
def zonesFirstZI (mp : TzMapZI) (zone : String) (territory : Option String) :
    Except PyErr ZIObj :=
  match zonesAllZI mp zone territory with
  | .error e => .error e
  | .ok [] => .error .stopIteration
  | .ok (x :: _) => .ok x

/-- `Zones.only` over a built mapping: zero matches raise
`MappedTzNotFoundError`, more than one raises `MappedTzNotUniqueError`,
otherwise the unique element is returned. -/
def zonesOnlyZI (mp : TzMapZI) (zone : String) (territory : Option String) :
    Except PyErr ZIObj :=
  match zonesAllZI mp zone territory with
  | .error e => .error e
  | .ok [] => .error .mappedTzNotFound
  | .ok [x] => .ok x
  | .ok (_ :: _ :: _) => .error .mappedTzNotUnique

end Suretime

namespace Suretime

/-- Insertion step of Python `sorted` on strings (lexicographic). -/
def insertStr (x : String) : List String → List String
  | [] => [x]
  | y :: ys => if x ≤ y then x :: y :: ys else y :: insertStr x ys

/-- Python `sorted` on strings: total, lexicographic. -/
def pySortedStr (l : List String) : List String :=
  l.foldr insertStr []

/-- The mapping as decoded from the JSON cache: leaf sets hold strings. -/
def TzMapStr : Type := PyDict (PyDict (List String))

/-- `Zones.all` over a cache-decoded (string-valued) mapping. -/
def zonesAllStr (mp : TzMapStr) (zone : String) (territory : Option String) :
    List String :=
  match territory with
  | none =>
    pySortedStr (((dictGet mp zone).getD []).foldl
      (fun acc p => p.2.foldl (fun a v => if v ∈ a then a else a ++ [v]) acc) [])
  | some t =>
    if t = "any" then
      pySortedStr (((dictGet mp zone).getD []).foldl
        (fun acc p => p.2.foldl (fun a v => if v ∈ a then a else a ++ [v]) acc) [])
    else
      let t' := if t = "primary" then "001" else t
      pySortedStr ((dictGet ((dictGet mp zone).getD []) t').getD [])

/-- `Zones.only` over a cache-decoded mapping. -/
def zonesOnlyStr (mp : TzMapStr) (zone : String) (territory : Option String) :
    Except PyErr String :=
  match zonesAllStr mp zone territory with
  | [] => .error .mappedTzNotFound
  | [x] => .ok x
  | _ :: _ :: _ => .error .mappedTzNotUnique

/-! ## The mapping builder (`_cache.TimezoneMapFilesysCache._build`) -/

/-- One parsed `mapZone` element of CLDR `windowsZones.xml`: attributes
`other` (display name), `territory`, and `type` split on spaces. -/
structure CldrNode where
  other : String
  territory : String
  types : List String
deriving DecidableEq, Repr

/-- Step 1 of `_build`: insert the identity entry of one IANA name. -/
def buildIdStep (mp : TzMapZI) (tz : String) : TzMapZI :=
  dictSet mp tz [("001", [ZIObj.mk tz])]

/-- Step 2 of `_build`, for one CLDR `mapZone` element: ensure the display
name has an entry, then assign its territory the parsed frozenset. -/
def buildStep (mp : TzMapZI) (node : CldrNode) : TzMapZI :=
  let mp1 := if dictContains mp node.other then mp else dictSet mp node.other []
  let inner := (dictGet mp1 node.other).getD []
  dictSet mp1 node.other
    (dictSet inner node.territory (pySetOfList (node.types.map ZIObj.mk)))

/-- `_build`: first map every IANA zone name to itself under territory
`"001"`, then insert the Windows display-name mappings. -/
def buildMap (available : List String) (cldr : List CldrNode) : TzMapZI :=
  cldr.foldl buildStep (available.foldl buildIdStep [])

theorem dictGet_set_self {α : Type} (d : PyDict α) (k : String) (v : α) :
    dictGet (dictSet d k v) k = some v := by
  induction d with
  | nil => simp [dictSet, dictGet]
  | cons p rest ih =>
    by_cases h : p.1 = k
    · simp [dictSet, dictGet, h]
    · simp [dictSet, dictGet, h, ih]

theorem dictGet_set_ne {α : Type} (d : PyDict α) (k k' : String) (v : α)
    (h : k ≠ k') : dictGet (dictSet d k v) k' = dictGet d k' := by
  induction d with
  | nil => simp [dictSet, dictGet, h]
  | cons p rest ih =>
    by_cases hp : p.1 = k
    · simp [dictSet, dictGet, hp, h]
    · simp [dictSet, dictGet, hp, ih]

/-- `buildStep` does not touch the entry of any other key. -/
theorem dictGet_buildStep_ne (mp : TzMapZI) (node : CldrNode) (iana : String)
    (h : node.other ≠ iana) :
    dictGet (buildStep mp node) iana = dictGet mp iana := by
  unfold buildStep
  simp only []
  rw [dictGet_set_ne _ _ _ _ h]
  split
  · rfl
  · rw [dictGet_set_ne _ _ _ _ h]

/-- After step 1 of the build, every available zone name maps to its
identity entry (later entries only rewrite other keys or rewrite the same
identity value). -/
theorem buildMap_step1 (available : List String) (mp : TzMapZI) (iana : String)
    (h : iana ∈ available ∨ dictGet mp iana = some [("001", [ZIObj.mk iana])]) :
    dictGet (available.foldl buildIdStep mp) iana
      = some [("001", [ZIObj.mk iana])] := by
  induction available generalizing mp with
  | nil =>
    simp only [List.foldl_nil]
    exact h.resolve_left (by simp)
  | cons tz rest ih =>
    simp only [List.foldl_cons]
    by_cases htz : tz = iana
    · subst htz
      exact ih _ (Or.inr (dictGet_set_self _ _ _))
    · rcases h with h | h
      · rcases List.mem_cons.mp h with h | h
        · exact absurd h.symm htz
        · exact ih _ (Or.inl h)
      · refine ih _ (Or.inr ?_)
        rw [show buildIdStep mp tz = dictSet mp tz [("001", [ZIObj.mk tz])] from rfl,
          dictGet_set_ne _ _ _ _ htz]
        exact h

/-- Step 2 of the build leaves the entry of any key no CLDR element names
untouched. -/
theorem buildMap_step2 (cldr : List CldrNode) (mp : TzMapZI) (iana : String)
    (hno : ∀ node ∈ cldr, node.other ≠ iana) :
    dictGet (cldr.foldl buildStep mp) iana = dictGet mp iana := by
  induction cldr generalizing mp with
  | nil => rfl
  | cons node rest ih =>
    simp only [List.foldl_cons]
    rw [ih _ (fun n hn => hno n (List.mem_cons_of_mem _ hn))]
    exact dictGet_buildStep_ne _ _ _ (hno node (by simp))

/-- The identity entry `buildMap` creates for an IANA name. -/
theorem buildMap_identity (available : List String) (cldr : List CldrNode)
    (iana : String) (hin : iana ∈ available)
    (hno : ∀ node ∈ cldr, node.other ≠ iana) :
    dictGet (buildMap available cldr) iana = some [("001", [ZIObj.mk iana])] := by
  unfold buildMap
  rw [buildMap_step2 _ _ _ hno]
  exact buildMap_step1 _ _ _ (Or.inl hin)

end Suretime

/-- C6: for every IANA zone name known to the host tz database (and, as in
the real CLDR data, not shadowed by a Windows display name), the built
mapping contains the identity entry `mapping[iana]["001"] = {iana}`, and
looking the name up with the default territory `"primary"` through
`Zones.only` returns that same zone. -/
theorem C6_identity_passthrough (available : List String) (cldr : List Suretime.CldrNode)
    (iana : String) (hin : iana ∈ available)
    (hno : ∀ node ∈ cldr, node.other ≠ iana) :
    Suretime.dictGet (Suretime.buildMap available cldr) iana
        = some [("001", [Suretime.ZIObj.mk iana])] ∧
      Suretime.zonesOnlyZI (Suretime.buildMap available cldr) iana (some "primary")
        = .ok (Suretime.ZIObj.mk iana) := by
  have hid := Suretime.buildMap_identity available cldr iana hin hno
  refine ⟨hid, ?_⟩
  unfold Suretime.zonesOnlyZI Suretime.zonesAllZI
  rw [hid]
  rfl

/-- Witness for C6: the tz database entry of Europe/Tiraspol maps to
itself. -/
theorem C6_identity_passthrough_witness :
    Suretime.dictGet
        (Suretime.buildMap ["Etc/UTC", "Europe/Tiraspol"]
          [⟨"Central Pacific Standard Time", "001", ["Pacific/Guadalcanal"]⟩])
        "Europe/Tiraspol"
        = some [("001", [Suretime.ZIObj.mk "Europe/Tiraspol"])] ∧
      Suretime.zonesOnlyZI
        (Suretime.buildMap ["Etc/UTC", "Europe/Tiraspol"]
          [⟨"Central Pacific Standard Time", "001", ["Pacific/Guadalcanal"]⟩])
        "Europe/Tiraspol" (some "primary")
        = .ok (Suretime.ZIObj.mk "Europe/Tiraspol") :=
  C6_identity_passthrough ["Etc/UTC", "Europe/Tiraspol"]
    [⟨"Central Pacific Standard Time", "001", ["Pacific/Guadalcanal"]⟩]
    "Europe/Tiraspol" (by simp) (by
      intro node hn
      simp only [List.mem_singleton] at hn
      subst hn
      decide)

/-- C3: `Zones.only(name, territory)` (over the cache-decoded mapping,
whose leaf sets hold strings) raises `MappedTzNotFoundError` when
`all(name, territory)` is empty, `MappedTzNotUniqueError` when it holds
more than one IANA zone, and returns the unique zone when it holds exactly
one. -/
theorem C3_only_cardinality (mp : Suretime.TzMapStr) (zone : String)
    (terr : Option String) :
    (Suretime.zonesOnlyStr mp zone terr = .error .mappedTzNotFound ↔
      Suretime.zonesAllStr mp zone terr = []) ∧
    (Suretime.zonesOnlyStr mp zone terr = .error .mappedTzNotUnique ↔
      1 < (Suretime.zonesAllStr mp zone terr).length) ∧
    (∀ x, Suretime.zonesAllStr mp zone terr = [x] →
      Suretime.zonesOnlyStr mp zone terr = .ok x) := by
  unfold Suretime.zonesOnlyStr
  cases h : Suretime.zonesAllStr mp zone terr with
  | nil => exact ⟨by simp, by simp, by simp⟩
  | cons x rest =>
    cases rest with
    | nil =>
      refine ⟨by simp, by simp, fun y hy => ?_⟩
      simp only [List.cons.injEq, and_true] at hy
      rw [hy]
    | cons z zs =>
      refine ⟨by simp, ?_, by simp⟩
      simp only [List.length_cons]
      constructor
      · intro _
        omega
      · intro _
        trivial

/-- Witness for C3: a mapping with no "ZZ" territory entry yields
`MappedTzNotFound`. -/
theorem C3_only_cardinality_witness :
    Suretime.zonesOnlyStr
        [("Central Pacific Standard Time",
          [("001", ["Pacific/Guadalcanal"]), ("AQ", ["Antarctica/Casey"])])]
        "Central Pacific Standard Time" (some "ZZ")
      = .error .mappedTzNotFound :=
  (C3_only_cardinality
    [("Central Pacific Standard Time",
      [("001", ["Pacific/Guadalcanal"]), ("AQ", ["Antarctica/Casey"])])]
    "Central Pacific Standard Time" (some "ZZ")).1.mpr rfl

namespace Suretime

/-! ## Facts about the set/sort pipeline of `Zones.all` -/

theorem mem_pySetAdd (acc : List ZIObj) (v x : ZIObj) :
    x ∈ pySetAdd acc v ↔ x ∈ acc ∨ x = v := by
  unfold pySetAdd
  split
  · rename_i hv
    constructor
    · exact Or.inl
    · rintro (h | h)
      · exact h
      · rwa [h]
  · simp

theorem mem_pySetUpdate (l acc : List ZIObj) (x : ZIObj) :
    x ∈ pySetUpdate acc l ↔ x ∈ acc ∨ x ∈ l := by
  induction l generalizing acc with
  | nil => simp [pySetUpdate]
  | cons v rest ih =>
    show x ∈ pySetUpdate (pySetAdd acc v) rest ↔ _
    rw [ih, mem_pySetAdd]
    simp only [List.mem_cons]
    tauto

theorem mem_pySetOfList (l : List ZIObj) (x : ZIObj) :
    x ∈ pySetOfList l ↔ x ∈ l := by
  unfold pySetOfList
  rw [mem_pySetUpdate]
  simp

theorem pySetUpdate_append (acc a b : List ZIObj) :
    pySetUpdate acc (a ++ b) = pySetUpdate (pySetUpdate acc a) b := by
  unfold pySetUpdate
  rw [List.foldl_append]

theorem foldl_append_shift {α : Type} (l : List (String × List α)) (init : List α) :
    l.foldl (fun a p => a ++ p.2) init = init ++ l.foldl (fun a p => a ++ p.2) [] := by
  induction l generalizing init with
  | nil => simp
  | cons p rest ih =>
    simp only [List.foldl_cons]
    rw [ih (init ++ p.2), ih ([] ++ p.2)]
    simp

/-- The `set()`-accumulating union loop of `Zones.all` equals deduplicating
the concatenated pool. -/
theorem unionAcc_eq (ntm : List (String × List ZIObj)) (acc : List ZIObj) :
    ntm.foldl (fun a p => pySetUpdate a p.2) acc
      = pySetUpdate acc (ntm.foldl (fun a p => a ++ p.2) []) := by
  induction ntm generalizing acc with
  | nil => simp [pySetUpdate]
  | cons p rest ih =>
    simp only [List.foldl_cons]
    rw [ih (pySetUpdate acc p.2), foldl_append_shift rest ([] ++ p.2)]
    simp only [List.nil_append]
    rw [pySetUpdate_append]

/-- `Zones.all` over a built mapping is `frozenset(sorted(set(pool)))` of
the dispatched match pool. -/
theorem zonesAllZI_eq_pool (mp : TzMapZI) (zone : String) (terr : Option String) :
    zonesAllZI mp zone terr
      = (pySortedZI (pySetOfList (matchPool mp zone terr))).map pySetOfList := by
  unfold zonesAllZI matchPool
  rcases terr with _ | t
  · dsimp only
    rw [unionAcc_eq]
    rfl
  · dsimp only
    by_cases ht : t = "any"
    · rw [if_pos ht, if_pos ht, unionAcc_eq]
      rfl
    · rw [if_neg ht, if_neg ht]

end Suretime

namespace Suretime

/-- A built-mapping entry with two IANA zones for one territory, as the
real CLDR data contains (for example Central Standard Time / US). -/
def mpC5 : TzMapZI :=
  [("Central Standard Time",
    [("001", [⟨"America/Chicago"⟩, ⟨"America/Indiana/Knox"⟩])])]

end Suretime

/-- C5 fails on the code: over a freshly built mapping the leaf sets hold
`ZoneInfo` objects, which define no ordering, so `sorted` inside
`Zones.all` raises `TypeError` as soon as a match set has two elements —
no sorted set is returned, and `Zones.first` propagates the same error. -/
theorem C5_counterexample :
    Suretime.zonesAllZI Suretime.mpC5 "Central Standard Time" (some "primary")
        = .error .typeError ∧
      Suretime.zonesFirstZI Suretime.mpC5 "Central Standard Time" (some "primary")
        = .error .typeError :=
  ⟨rfl, rfl⟩

/-- C5 amended: `Zones.all` dispatches the territory as claimed (primary →
"001", None/any → union over territories, otherwise exact match) and, when
the deduplicated match set has at most one element, returns it (so the
claimed deduplicated-set semantics holds there, and emptiness means no
match); but with two or more `ZoneInfo` matches it raises `TypeError`
instead of returning a sorted set, and `Zones.first` returns the unique
element of a singleton result, raises `StopIteration` on an empty result,
and propagates the `TypeError` otherwise. -/
theorem C5_all_first_amended (mp : Suretime.TzMapZI) (zone : String)
    (t : Option String) :
    Suretime.zonesAllZI mp zone (some "primary")
        = Suretime.zonesAllZI mp zone (some "001") ∧
      Suretime.zonesAllZI mp zone none = Suretime.zonesAllZI mp zone (some "any") ∧
      (∀ l, Suretime.zonesAllZI mp zone t = .ok l →
        l.length ≤ 1 ∧ (∀ x, x ∈ l ↔ x ∈ Suretime.matchPool mp zone t)) ∧
      (Suretime.zonesAllZI mp zone t = .error .typeError ↔
        2 ≤ (Suretime.pySetOfList (Suretime.matchPool mp zone t)).length) ∧
      (Suretime.zonesAllZI mp zone t = .ok [] →
        Suretime.zonesFirstZI mp zone t = .error .stopIteration) ∧
      (∀ x, Suretime.zonesAllZI mp zone t = .ok [x] →
        Suretime.zonesFirstZI mp zone t = .ok x) := by
  refine ⟨rfl, rfl, ?_, ?_, ?_, ?_⟩
  · intro l hok
    rw [Suretime.zonesAllZI_eq_pool] at hok
    cases hp : Suretime.pySetOfList (Suretime.matchPool mp zone t) with
    | nil =>
      rw [hp] at hok
      simp only [Suretime.pySortedZI, Except.map] at hok
      injection hok with hok
      subst hok
      refine ⟨by decide, fun x => ?_⟩
      have hm := Suretime.mem_pySetOfList (Suretime.matchPool mp zone t) x
      rw [hp] at hm
      exact hm
    | cons y ys =>
      cases ys with
      | nil =>
        rw [hp] at hok
        simp only [Suretime.pySortedZI, Except.map] at hok
        injection hok with hok
        subst hok
        refine ⟨by simp [Suretime.pySetOfList, Suretime.pySetUpdate, Suretime.pySetAdd],
          fun x => ?_⟩
        have hm := Suretime.mem_pySetOfList (Suretime.matchPool mp zone t) x
        rw [hp] at hm
        rw [show Suretime.pySetOfList [y] = [y] from rfl]
        exact hm
      | cons z zs =>
        rw [hp] at hok
        simp only [Suretime.pySortedZI, Except.map] at hok
        exact absurd hok (by simp)
  · rw [Suretime.zonesAllZI_eq_pool]
    cases hp : Suretime.pySetOfList (Suretime.matchPool mp zone t) with
    | nil => simp [Suretime.pySortedZI, Except.map]
    | cons y ys =>
      cases ys with
      | nil => simp [Suretime.pySortedZI, Except.map]
      | cons z zs =>
        simp only [Suretime.pySortedZI, Except.map, List.length_cons]
        constructor
        · intro _
          omega
        · intro _
          trivial
  · intro hok
    unfold Suretime.zonesFirstZI
    rw [hok]
  · intro x hok
    unfold Suretime.zonesFirstZI
    rw [hok]

/-- Witness for C5 (amended) on a singleton mapping: `all` returns the
single match and `first` returns it. -/
theorem C5_all_first_amended_witness :
    Suretime.zonesFirstZI
        [("Mountain Standard Time", [("001", [⟨"America/Denver"⟩])])]
        "Mountain Standard Time" (some "primary")
      = .ok ⟨"America/Denver"⟩ :=
  (C5_all_first_amended
    [("Mountain Standard Time", [("001", [⟨"America/Denver"⟩])])]
    "Mountain Standard Time" (some "primary")).2.2.2.2.2 ⟨"America/Denver"⟩ (by rfl)

namespace Suretime

/-! ## The file-system cache (`_cache.TimezoneMapFilesysCache`) -/

/-- The cache state `get()` consults: `none` — no path configured;
`some none` — path configured but file missing; `some (some (ts, mp))` —
file present with download timestamp `ts` (µs) and stored mapping `mp`.
`expiration_mins` as in the dataclass. -/
structure FsCache (α : Type) where
  fileDoc : Option (Option (Int × α))
  expiration_mins : Int

/-- `_read()`: return the stored mapping unless the path is unset, the file
is missing, or `(now - then).total_seconds() > expiration_mins * 60`; the
float comparison is modeled exactly over microseconds (datetime
resolution). -/
def cacheRead {α : Type} (c : FsCache α) (nowUs : Int) : Option α :=
  match c.fileDoc with
  | none => none
  | some none => none
  | some (some (thenUs, mp)) =>
    if nowUs - thenUs > c.expiration_mins * 60 * 1000000 then none else some mp

/-- `get()`: the `_read` result if any, else rebuild and return the fresh
mapping (`_save`); the Bool records whether a rebuild happened. -/
def cacheGet {α : Type} (c : FsCache α) (nowUs : Int) (built : α) : α × Bool :=
  match cacheRead c nowUs with
  | some mp => (mp, false)
  | none => (built, true)

end Suretime

/-- C4: a cached document aged exactly `expiration_mins × 60` seconds is
still fresh — `get()` returns the stored mapping without rebuilding — while
any strictly older document triggers a rebuild: the staleness test is
strict greater-than on the elapsed time. -/
theorem C4_cache_expiry_boundary {α : Type} (thenUs nowUs e : Int) (mp built : α) :
    (nowUs - thenUs = e * 60 * 1000000 →
      Suretime.cacheRead ⟨some (some (thenUs, mp)), e⟩ nowUs = some mp ∧
        Suretime.cacheGet ⟨some (some (thenUs, mp)), e⟩ nowUs built = (mp, false)) ∧
    (nowUs - thenUs > e * 60 * 1000000 →
      Suretime.cacheRead ⟨some (some (thenUs, mp)), e⟩ nowUs = none ∧
        Suretime.cacheGet ⟨some (some (thenUs, mp)), e⟩ nowUs built = (built, true)) ∧
    (Suretime.cacheRead ⟨some (some (thenUs, mp)), e⟩ nowUs = some mp ↔
      nowUs - thenUs ≤ e * 60 * 1000000) := by
  unfold Suretime.cacheGet Suretime.cacheRead
  dsimp only
  by_cases h : nowUs - thenUs > e * 60 * 1000000
  · rw [if_pos h]
    exact ⟨fun he => absurd he (by omega), fun _ => ⟨rfl, rfl⟩,
      iff_of_false (by simp) (by omega)⟩
  · rw [if_neg h]
    exact ⟨fun _ => ⟨rfl, rfl⟩, fun hgt => absurd hgt h,
      iff_of_true rfl (by omega)⟩

/-- Witness for C4 at the default 34560-minute expiration, exactly at the
boundary. -/
theorem C4_cache_expiry_boundary_witness :
    Suretime.cacheGet ⟨some (some (0, (7 : Nat))), 34560⟩ (34560 * 60 * 1000000) 9
      = (7, false) :=
  ((C4_cache_expiry_boundary 0 (34560 * 60 * 1000000) 34560 7 9).1 (by norm_num)).2

namespace Suretime

/-! ## NTP continents (`_clock.NtpContinents`, `TzUtils.get_ntp_time`) -/

/-- `_clock.NtpContinents.known` — note the source misspells Oceania as
`"oceana"`. -/
def ntpKnown : List String :=
  ["antarctica", "asia", "europe", "north-america", "oceana", "south-america"]

/-- ASCII lowering as `str.lower` acts on these inputs. -/
def pyLowerChar (c : Char) : Char :=
  if 'A' ≤ c ∧ c ≤ 'Z' then Char.ofNat (c.toNat + 32) else c

/-- The normalization in `NtpContinents.of`:
`name.lower().replace(" ", "-").replace("_", "-")` (single-character
replacements, hence applied character-wise). -/
def pyNormalizeContinent (s : String) : String :=
  String.mk (s.data.map (fun c =>
    let c' := pyLowerChar c
    if c' = ' ' ∨ c' = '_' then '-' else c'))

/-- `NtpContinents.of`: normalized keyword, or `LookupError`. -/
def ntpContinentOf (name : String) : Except PyErr String :=
  let n := pyNormalizeContinent name
  if n ∈ ntpKnown then .ok n else .error .lookupError

/-- The host `TzUtils.get_ntp_time` resolves its continent keyword to. -/
def ntpHost (server : String) : Except PyErr String :=
  (ntpContinentOf server).map (fun c => c ++ ".pool.ntp.org")

end Suretime

/-- C8: the code rejects the genuine continent keyword `oceania` and
instead accepts the misspelling `oceana`, resolving it to the nonexistent
pool `oceana.pool.ntp.org`; the other keywords behave as claimed
(case- and separator-insensitively). -/
theorem C8_ntp_continent_typo :
    Suretime.ntpHost "oceania" = .error .lookupError ∧
      Suretime.ntpHost "oceana" = .ok "oceana.pool.ntp.org" ∧
      Suretime.ntpHost "North America" = .ok "north-america.pool.ntp.org" ∧
      Suretime.ntpHost "EUROPE" = .ok "europe.pool.ntp.org" ∧
      Suretime.ntpHost "south_america" = .ok "south-america.pool.ntp.org" ∧
      Suretime.ntpHost "mars" = .error .lookupError := by
  refine ⟨rfl, rfl, rfl, rfl, rfl, rfl⟩

namespace Suretime

/-! ## ISO formatting and parsing (`iso_with_zone` / `ZonedDatetime.parse`)

Strings are modeled as `List Char`.  `datetime.isoformat` zero-pads each
field; `str.replace` scans left to right over non-overlapping occurrences;
`datetime.fromisoformat` is modeled on the grammar family `isoformat`
emits (which is all `parse` ever feeds it on the round trip). -/

def digitChar (d : Nat) : Char :=
  Char.ofNat (48 + d % 10)

def digitVal (c : Char) : Nat :=
  c.toNat - 48

def isDigitCh (c : Char) : Bool :=
  48 ≤ c.toNat && c.toNat ≤ 57

def pad2 (n : Nat) : List Char :=
  [digitChar (n / 10), digitChar n]

def pad4 (n : Nat) : List Char :=
  [digitChar (n / 1000), digitChar (n / 100), digitChar (n / 10), digitChar n]

def pad6 (n : Nat) : List Char :=
  [digitChar (n / 100000), digitChar (n / 10000), digitChar (n / 1000),
    digitChar (n / 100), digitChar (n / 10), digitChar n]

/-- `datetime.isoformat(timespec="microseconds")`, naive part. -/
def isoChars (w : Wall) : List Char :=
  pad4 w.year ++ '-' :: pad2 w.month ++ '-' :: pad2 w.day ++
    'T' :: pad2 w.hour ++ ':' :: pad2 w.minute ++ ':' :: pad2 w.second ++
    '.' :: pad6 w.microsecond

/-- CPython `_format_offset` for a whole-second offset: sign, `HH:MM`, and
`:SS` only when the seconds component is nonzero. -/
def offsetChars (offUs : Int) : List Char :=
  let sign := if offUs < 0 then '-' else '+'
  let a := offUs.natAbs
  let hh := a / 3600000000
  let mm := a / 60000000 % 60
  let ss := a / 1000000 % 60
  sign :: (pad2 hh ++ ':' :: pad2 mm ++ (if ss = 0 then [] else ':' :: pad2 ss))

/-- Fuel-indexed body of `str.replace` (left-to-right, non-overlapping);
the pattern is `p :: ps`, never empty. -/
def replaceAllF (fuel : Nat) (p : Char) (ps rep : List Char) : List Char → List Char
  | [] => []
  | c :: rest =>
    match fuel with
    | 0 => c :: rest
    | f + 1 =>
      if (p :: ps).isPrefixOf (c :: rest) then
        rep ++ replaceAllF f p ps rep (rest.drop ps.length)
      else
        c :: replaceAllF f p ps rep rest

/-- Python `s.replace(pat, rep)` for the nonempty pattern `p :: ps`. -/
def replaceAll (p : Char) (ps rep s : List Char) : List Char :=
  replaceAllF s.length p ps rep s

/-- The aware `isoformat` output:
`dt.isoformat(timespec="microseconds").replace("+00:00", "Z")`. -/
def isoFullChars (dt : PyDatetime) : List Char :=
  replaceAll '+' ['0', '0', ':', '0', '0'] ['Z'] (isoChars dt.wall ++ offsetChars dt.offUs)

def isSpaceCh (c : Char) : Bool :=
  c = ' ' || c = '\t' || c = '\n' || c = '\r'

/-- Python `str.strip()`. -/
def pyStrip (s : List Char) : List Char :=
  ((s.dropWhile isSpaceCh).reverse.dropWhile isSpaceCh).reverse

/-- `_model.ZonedDatetime` (the fields the round trip reads). -/
structure ZonedDatetime where
  dt : PyDatetime
  zone : ZoneInfo
  source : Option GenericTimezone

/-- `iso_with_zone` renders `str(zone)` but maps the key `"UTC"` to
`"Etc/UTC"`. -/
def zoneKeyFix (k : String) : String :=
  if k = "UTC" then "Etc/UTC" else k

/-- `AbstractZonedDatetime.iso_with_zone`. -/
def isoWithZone (z : ZonedDatetime) : List Char :=
  isoFullChars z.dt ++ ' ' :: '[' :: (zoneKeyFix z.zone.key).data ++ [']']

/-- The character class of the zone group in `parse`'s regex:
`[/A-Za-z0-9_\-+]`. -/
def zoneClassChar (c : Char) : Bool :=
  c = '/' || (decide ('A' ≤ c) && decide (c ≤ 'Z')) ||
    (decide ('a' ≤ c) && decide (c ≤ 'z')) || isDigitCh c || c = '_' ||
    c = '-' || c = '+'

def parse2 (a b : Char) : Option Nat :=
  if isDigitCh a && isDigitCh b then some (10 * digitVal a + digitVal b) else none

def parse4 (a b c d : Char) : Option Nat :=
  if isDigitCh a && isDigitCh b && isDigitCh c && isDigitCh d then
    some (1000 * digitVal a + 100 * digitVal b + 10 * digitVal c + digitVal d)
  else none

def parse6 (a b c d e f : Char) : Option Nat :=
  if isDigitCh a && isDigitCh b && isDigitCh c && isDigitCh d &&
      isDigitCh e && isDigitCh f then
    some (100000 * digitVal a + 10000 * digitVal b + 1000 * digitVal c +
      100 * digitVal d + 10 * digitVal e + digitVal f)
  else none

/-- The UTC-offset suffix `fromisoformat` accepts on these inputs:
`±HH:MM` or `±HH:MM:SS`, validated as a legal timezone offset. -/
def parseOffsetTail (s : List Char) : Option Int :=
  match s with
  | [sg, a, b, k1, c, d] =>
    if k1 = ':' then
      match parse2 a b, parse2 c d with
      | some hh, some mm =>
        if (sg = '+' ∨ sg = '-') ∧ mm < 60 ∧ hh * 3600 + mm * 60 < 86400 then
          some ((if sg = '-' then -1 else 1) * ((hh * 3600 + mm * 60 : Nat) : Int) * 1000000)
        else none
      | _, _ => none
    else none
  | [sg, a, b, k1, c, d, k2, e, f] =>
    if k1 = ':' ∧ k2 = ':' then
      match parse2 a b, parse2 c d, parse2 e f with
      | some hh, some mm, some ss =>
        if (sg = '+' ∨ sg = '-') ∧ mm < 60 ∧ ss < 60 ∧
            hh * 3600 + mm * 60 + ss < 86400 then
          some ((if sg = '-' then -1 else 1) *
            ((hh * 3600 + mm * 60 + ss : Nat) : Int) * 1000000)
        else none
      | _, _, _ => none
    else none
  | _ => none

/-- `datetime.fromisoformat` on the emitted grammar: fixed-width date-time
with microseconds, then an offset suffix; field ranges validated as the
datetime constructor does. -/
def parseIsoChars (s : List Char) : Option (Wall × Int) :=
  match s with
  | y1 :: y2 :: y3 :: y4 :: k1 :: m1 :: m2 :: k2 :: d1 :: d2 :: k3 ::
      h1 :: h2 :: k4 :: mi1 :: mi2 :: k5 :: se1 :: se2 :: k6 ::
      u1 :: u2 :: u3 :: u4 :: u5 :: u6 :: rest =>
    if k1 = '-' ∧ k2 = '-' ∧ k3 = 'T' ∧ k4 = ':' ∧ k5 = ':' ∧ k6 = '.' then
      match parse4 y1 y2 y3 y4, parse2 m1 m2, parse2 d1 d2, parse2 h1 h2,
          parse2 mi1 mi2, parse2 se1 se2, parse6 u1 u2 u3 u4 u5 u6 with
      | some y, some mo, some dy, some hr, some mi, some se, some us =>
        let w : Wall := ⟨y, mo, dy, hr, mi, se, us⟩
        if ValidWall w then
          match parseOffsetTail rest with
          | some off => some (w, off)
          | none => none
        else none
      | _, _, _, _, _, _, _ => none
    else none
  | _ => none

/-- `ZonedDatetime.parse`: the regex split, the `Z`/space/comma
normalization, `fromisoformat`, `ZoneInfo(zone)` through the zone database
`db`, and `astimezone`. -/
def parseZoned (db : String → Option ZoneInfo) (s : List Char) :
    Except PyErr (PyDatetime × ZoneInfo) :=
  let s1 := s.dropWhile (fun c => c = ' ')
  let g1 := s1.takeWhile (fun c => ¬ c = '[')
  match s1.drop g1.length with
  | '[' :: r2 =>
    let g2 := r2.takeWhile (fun c => ¬ c = ']')
    match r2.drop g2.length with
    | ']' :: r4 =>
      if g1.length = 0 ∨ g2.length = 0 ∨ ¬ g2.all zoneClassChar ∨
          ¬ r4.all (fun c => c = ' ') then
        .error .datetimeParse
      else
        let t1 := replaceAll 'Z' [] ['+', '0', '0', ':', '0', '0'] g1
        let t2 := pyStrip t1
        let t3 := replaceAll ' ' [] ['T'] t2
        let t4 := replaceAll ',' [] ['.'] t3
        match parseIsoChars t4 with
        | none => .error .valueError
        | some (w, off) =>
          match db (String.mk g2) with
          | none => .error .zoneInfoNotFound
          | some z =>
            match astimezone ⟨w, off⟩ z with
            | none => .error .overflowError
            | some r => .ok r
    | _ => .error .datetimeParse
  | _ => .error .datetimeParse

end Suretime

namespace Suretime

/-! ## Digit round trips -/

theorem digit_facts : ∀ k < 10,
    isDigitCh (Char.ofNat (48 + k)) = true ∧ digitVal (Char.ofNat (48 + k)) = k := by
  decide

theorem isDigitCh_digitChar (d : Nat) : isDigitCh (digitChar d) = true :=
  (digit_facts (d % 10) (Nat.mod_lt _ (by norm_num))).1

theorem digitVal_digitChar (d : Nat) : digitVal (digitChar d) = d % 10 :=
  (digit_facts (d % 10) (Nat.mod_lt _ (by norm_num))).2

theorem parse2_pad2 (n : Nat) (h : n < 100) :
    parse2 (digitChar (n / 10)) (digitChar n) = some n := by
  unfold parse2
  rw [isDigitCh_digitChar, isDigitCh_digitChar]
  simp only [Bool.and_self, if_true]
  rw [digitVal_digitChar, digitVal_digitChar]
  congr 1
  omega

theorem parse4_pad4 (n : Nat) (h : n < 10000) :
    parse4 (digitChar (n / 1000)) (digitChar (n / 100)) (digitChar (n / 10))
      (digitChar n) = some n := by
  unfold parse4
  rw [isDigitCh_digitChar, isDigitCh_digitChar, isDigitCh_digitChar, isDigitCh_digitChar]
  simp only [Bool.and_self, if_true]
  rw [digitVal_digitChar, digitVal_digitChar, digitVal_digitChar, digitVal_digitChar]
  congr 1
  omega

theorem parse6_pad6 (n : Nat) (h : n < 1000000) :
    parse6 (digitChar (n / 100000)) (digitChar (n / 10000)) (digitChar (n / 1000))
      (digitChar (n / 100)) (digitChar (n / 10)) (digitChar n) = some n := by
  unfold parse6
  rw [isDigitCh_digitChar, isDigitCh_digitChar, isDigitCh_digitChar,
    isDigitCh_digitChar, isDigitCh_digitChar, isDigitCh_digitChar]
  simp only [Bool.and_self, if_true]
  rw [digitVal_digitChar, digitVal_digitChar, digitVal_digitChar,
    digitVal_digitChar, digitVal_digitChar, digitVal_digitChar]
  congr 1
  omega

end Suretime

namespace Suretime

theorem offsetChars_whole_minute (off : Int) (hmin : off % 60000000 = 0)
    (_hrange : off.natAbs < 86400000000) :
    offsetChars off
      = (if off < 0 then '-' else '+') ::
          (pad2 (off.natAbs / 3600000000) ++
            ':' :: pad2 (off.natAbs / 60000000 % 60)) := by
  unfold offsetChars
  simp only []
  have hss : off.natAbs / 1000000 % 60 = 0 := by omega
  rw [hss]
  simp

theorem parseOffsetTail_offsetChars (off : Int) (hmin : off % 60000000 = 0)
    (hrange : off.natAbs < 86400000000) :
    parseOffsetTail (offsetChars off) = some off := by
  rw [offsetChars_whole_minute off hmin hrange]
  have hhh : off.natAbs / 3600000000 < 100 := by omega
  have hmm : off.natAbs / 60000000 % 60 < 100 := by omega
  unfold pad2
  show parseOffsetTail [_, _, _, ':', _, _] = some off
  unfold parseOffsetTail
  dsimp only
  rw [if_pos rfl, parse2_pad2 _ hhh, parse2_pad2 _ hmm]
  have hcond : ((if off < 0 then '-' else '+') = '+' ∨
      (if off < 0 then '-' else '+') = '-') ∧
      off.natAbs / 60000000 % 60 < 60 ∧
      off.natAbs / 3600000000 * 3600 + off.natAbs / 60000000 % 60 * 60 < 86400 := by
    refine ⟨?_, by omega, by omega⟩
    split
    · exact Or.inr rfl
    · exact Or.inl rfl
  simp only [hcond, if_true, and_true, if_pos hcond]
  by_cases hneg : off < 0
  · rw [if_pos hneg]
    rw [if_pos (show ('-' : Char) = '-' from rfl)]
    simp only [Option.some.injEq]
    omega
  · rw [if_neg hneg]
    rw [if_neg (show ¬ ('+' : Char) = '-' by decide)]
    simp only [Option.some.injEq]
    omega

end Suretime

namespace Suretime

theorem daysInMonthTable_le (m : Nat) : daysInMonthTable m ≤ 31 := by
  unfold daysInMonthTable
  split <;> omega

theorem daysInMonth_le (y m : Nat) : daysInMonth y m ≤ 31 := by
  unfold daysInMonth
  split
  · omega
  · exact daysInMonthTable_le m

/-- `fromisoformat` inverts `isoformat` on the emitted grammar. -/
theorem parseIsoChars_round (w : Wall) (off : Int) (hw : ValidWall w)
    (hmin : off % 60000000 = 0) (hrange : off.natAbs < 86400000000) :
    parseIsoChars (isoChars w ++ offsetChars off) = some (w, off) := by
  obtain ⟨h1, h2, h3, h4, h5, h6, h7, h8, h9, h10⟩ := hw
  have hym : w.year < 10000 := by omega
  have hmo : w.month < 100 := by omega
  have hdy : w.day < 100 := by
    have := daysInMonth_le w.year w.month
    omega
  have hhr : w.hour < 100 := by omega
  have hmi : w.minute < 100 := by omega
  have hse : w.second < 100 := by omega
  have hus : w.microsecond < 1000000 := by omega
  unfold isoChars pad4 pad2 pad6
  simp only [List.cons_append, List.nil_append]
  unfold parseIsoChars
  dsimp only
  rw [if_pos ⟨rfl, rfl, rfl, rfl, rfl, rfl⟩]
  rw [parse4_pad4 _ hym, parse2_pad2 _ hmo, parse2_pad2 _ hdy, parse2_pad2 _ hhr,
    parse2_pad2 _ hmi, parse2_pad2 _ hse, parse6_pad6 _ hus]
  dsimp only
  rw [if_pos (show ValidWall ⟨w.year, w.month, w.day, w.hour, w.minute, w.second,
    w.microsecond⟩ from ⟨h1, h2, h3, h4, h5, h6, h7, h8, h9, h10⟩)]
  rw [parseOffsetTail_offsetChars off hmin hrange]

end Suretime

namespace Suretime

/-! ## `str.replace` and `str.strip` facts -/

theorem isPrefixOf_cons_cons (a b : Char) (as bs : List Char) :
    (a :: as).isPrefixOf (b :: bs) = (a == b && as.isPrefixOf bs) := rfl

theorem replaceAllF_irrel (p : Char) (ps rep : List Char) :
    ∀ (f1 : Nat) (s : List Char) (f2 : Nat), s.length ≤ f1 → s.length ≤ f2 →
      replaceAllF f1 p ps rep s = replaceAllF f2 p ps rep s := by
  intro f1
  induction f1 with
  | zero =>
    intro s f2 h1 h2
    have : s = [] := List.length_eq_zero.mp (by omega)
    subst this
    cases f2 <;> rfl
  | succ f ih =>
    intro s f2 h1 h2
    cases s with
    | nil => cases f2 <;> rfl
    | cons c rest =>
      have hr1 : rest.length ≤ f := by
        simp only [List.length_cons] at h1
        omega
      cases f2 with
      | zero => simp at h2
      | succ f2' =>
        have hr2 : rest.length ≤ f2' := by
          simp only [List.length_cons] at h2
          omega
        have hL : replaceAllF (f + 1) p ps rep (c :: rest)
            = if (p :: ps).isPrefixOf (c :: rest) then
                rep ++ replaceAllF f p ps rep (rest.drop ps.length)
              else c :: replaceAllF f p ps rep rest := rfl
        have hR : replaceAllF (f2' + 1) p ps rep (c :: rest)
            = if (p :: ps).isPrefixOf (c :: rest) then
                rep ++ replaceAllF f2' p ps rep (rest.drop ps.length)
              else c :: replaceAllF f2' p ps rep rest := rfl
        rw [hL, hR]
        split
        · rw [ih (rest.drop ps.length) f2'
            (by rw [List.length_drop]; omega) (by rw [List.length_drop]; omega)]
        · rw [ih rest f2' hr1 hr2]

theorem replaceAll_nil (p : Char) (ps rep : List Char) :
    replaceAll p ps rep [] = [] := rfl

theorem replaceAll_cons_ne (p : Char) (ps rep : List Char) (c : Char)
    (rest : List Char) (h : ¬ c = p) :
    replaceAll p ps rep (c :: rest) = c :: replaceAll p ps rep rest := by
  unfold replaceAll
  show (if (p :: ps).isPrefixOf (c :: rest) then
      rep ++ replaceAllF rest.length p ps rep (rest.drop ps.length)
    else c :: replaceAllF rest.length p ps rep rest) = _
  rw [if_neg (by
    rw [isPrefixOf_cons_cons]
    simp only [Bool.and_eq_true, beq_iff_eq]
    intro hc
    exact h hc.1.symm)]

/-- `str.replace` is the identity on a string that never contains the
pattern's first character. -/
theorem replaceAll_of_no_hit (p : Char) (ps rep : List Char) (s : List Char)
    (h : ∀ c ∈ s, ¬ c = p) : replaceAll p ps rep s = s := by
  induction s with
  | nil => rfl
  | cons c rest ih =>
    rw [replaceAll_cons_ne _ _ _ _ _ (h c (by simp)),
      ih (fun c hc => h c (List.mem_cons_of_mem _ hc))]

/-- `str.replace` skips over a pattern-free front segment. -/
theorem replaceAll_append_no_hit (p : Char) (ps rep : List Char) (a b : List Char)
    (h : ∀ c ∈ a, ¬ c = p) :
    replaceAll p ps rep (a ++ b) = a ++ replaceAll p ps rep b := by
  induction a with
  | nil => rfl
  | cons c rest ih =>
    rw [List.cons_append, replaceAll_cons_ne _ _ _ _ _ (h c (by simp)),
      ih (fun c hc => h c (List.mem_cons_of_mem _ hc))]
    rfl

/-- `str.replace` rewrites the pattern where it occurs. -/
theorem replaceAll_hit (p : Char) (ps rep b : List Char) :
    replaceAll p ps rep ((p :: ps) ++ b) = rep ++ replaceAll p ps rep b := by
  unfold replaceAll
  have hlen : ((p :: ps) ++ b).length = ps.length + b.length + 1 := by
    simp only [List.length_append, List.length_cons]
    omega
  rw [hlen]
  have hstep : replaceAllF (ps.length + b.length + 1) p ps rep ((p :: ps) ++ b)
      = if (p :: ps).isPrefixOf ((p :: ps) ++ b) then
          rep ++ replaceAllF (ps.length + b.length) p ps rep ((ps ++ b).drop ps.length)
        else p :: replaceAllF (ps.length + b.length) p ps rep (ps ++ b) := rfl
  rw [hstep, if_pos (by
    rw [List.isPrefixOf_iff_prefix]
    exact List.prefix_append _ _), List.drop_left]
  congr 1
  exact replaceAllF_irrel p ps rep _ _ _ (by omega) (by omega)

/-- A pattern hit at the head whose tail does not continue the pattern and
holds no later first-character occurrence leaves the string unchanged. -/
theorem replaceAll_head_no_match (p : Char) (ps rep : List Char) (rest : List Char)
    (hpre : ps.isPrefixOf rest = false) (h : ∀ c ∈ rest, ¬ c = p) :
    replaceAll p ps rep (p :: rest) = p :: rest := by
  unfold replaceAll
  show (if (p :: ps).isPrefixOf (p :: rest) then
      rep ++ replaceAllF rest.length p ps rep (rest.drop ps.length)
    else p :: replaceAllF rest.length p ps rep rest) = _
  rw [if_neg (by
    rw [isPrefixOf_cons_cons]
    simp [hpre])]
  have := replaceAll_of_no_hit p ps rep rest h
  unfold replaceAll at this
  rw [this]

end Suretime

namespace Suretime

theorem dropWhile_of_none (p : Char → Bool) (s : List Char)
    (h : ∀ c ∈ s, p c = false) : s.dropWhile p = s := by
  induction s with
  | nil => rfl
  | cons c rest ih =>
    rw [List.dropWhile_cons, if_neg (by simp [h c (by simp)]),
      ]

theorem pyStrip_append_space (s : List Char)
    (h : ∀ c ∈ s, isSpaceCh c = false) : pyStrip (s ++ [' ']) = s := by
  unfold pyStrip
  cases s with
  | nil => rfl
  | cons c rest =>
    rw [List.cons_append, List.dropWhile_cons, if_neg (by simp [h c (by simp)])]
    rw [show (c :: (rest ++ [' '])).reverse = ' ' :: (c :: rest).reverse by simp]
    rw [List.dropWhile_cons, if_pos (by decide)]
    rw [dropWhile_of_none _ _ (by
      intro x hx
      exact h x (by
        rw [List.mem_reverse] at hx
        exact hx))]
    exact List.reverse_reverse _

theorem digitChar_eq_zero_iff : ∀ k < 10, (Char.ofNat (48 + k) = '0' ↔ k = 0) := by
  decide

theorem isDigitCh_ne (c : Char) (h : isDigitCh c = true) :
    ¬ c = '+' ∧ ¬ c = 'Z' ∧ ¬ c = '[' ∧ ¬ c = ']' ∧ isSpaceCh c = false ∧
      ¬ c = ',' ∧ ¬ c = ' ' := by
  have hsp : ¬ c = ' ' := fun he => by subst he; exact absurd h (by decide)
  have htab : ¬ c = '\t' := fun he => by subst he; exact absurd h (by decide)
  have hnl : ¬ c = '\n' := fun he => by subst he; exact absurd h (by decide)
  have hcr : ¬ c = '\r' := fun he => by subst he; exact absurd h (by decide)
  refine ⟨fun he => by subst he; exact absurd h (by decide),
    fun he => by subst he; exact absurd h (by decide),
    fun he => by subst he; exact absurd h (by decide),
    fun he => by subst he; exact absurd h (by decide),
    ?_,
    fun he => by subst he; exact absurd h (by decide), hsp⟩
  unfold isSpaceCh
  simp [hsp, htab, hnl, hcr]

/-- Every character of the naive `isoformat` body is a digit or one of the
separators. -/
theorem mem_isoChars (w : Wall) :
    ∀ c ∈ isoChars w,
      isDigitCh c = true ∨ c = '-' ∨ c = ':' ∨ c = '.' ∨ c = 'T' := by
  unfold isoChars pad4 pad2 pad6
  simp only [List.forall_mem_append, List.forall_mem_cons, List.forall_mem_nil]
  simp [isDigitCh_digitChar]

/-- Every character of a rendered offset is a digit, a sign, or a colon. -/
theorem mem_offsetChars (off : Int) :
    ∀ c ∈ offsetChars off,
      isDigitCh c = true ∨ c = '+' ∨ c = '-' ∨ c = ':' := by
  unfold offsetChars
  simp only []
  rw [List.forall_mem_cons, List.forall_mem_append]
  refine ⟨by split <;> simp, ?_, ?_⟩
  · rw [List.forall_mem_append, List.forall_mem_cons]
    exact ⟨by simp [pad2, isDigitCh_digitChar], by simp,
      by simp [pad2, isDigitCh_digitChar]⟩
  · split
    · simp
    · simp [pad2, isDigitCh_digitChar]

end Suretime

namespace Suretime

/-- Characters of the naive isoformat body are not signs, `Z`, brackets,
whitespace, or commas. -/
theorem isoChars_class (w : Wall) :
    ∀ c ∈ isoChars w,
      ¬ c = '+' ∧ ¬ c = 'Z' ∧ ¬ c = '[' ∧ ¬ c = ']' ∧ isSpaceCh c = false ∧
        ¬ c = ',' ∧ ¬ c = ' ' := by
  intro c hc
  rcases mem_isoChars w c hc with h | rfl | rfl | rfl | rfl
  · exact isDigitCh_ne c h
  all_goals exact ⟨by decide, by decide, by decide, by decide, by decide,
    by decide, by decide⟩

/-- Characters of a rendered offset are not `Z`, brackets, whitespace, or
commas. -/
theorem offsetChars_class (off : Int) :
    ∀ c ∈ offsetChars off,
      ¬ c = 'Z' ∧ ¬ c = '[' ∧ ¬ c = ']' ∧ isSpaceCh c = false ∧
        ¬ c = ',' ∧ ¬ c = ' ' := by
  intro c hc
  rcases mem_offsetChars off c hc with h | rfl | rfl | rfl
  · exact (isDigitCh_ne c h).2
  all_goals exact ⟨by decide, by decide, by decide, by decide, by decide,
    by decide⟩

/-- The aware isoformat output is the naive body plus either `Z` (offset
zero) or the rendered offset: the `replace("+00:00", "Z")` hits exactly in
the zero-offset case. -/
theorem isoFullChars_eq (dt : PyDatetime) (hmin : dt.offUs % 60000000 = 0)
    (hrange : dt.offUs.natAbs < 86400000000) :
    isoFullChars dt
      = isoChars dt.wall ++
          (if dt.offUs = 0 then ['Z'] else offsetChars dt.offUs) := by
  unfold isoFullChars
  rw [replaceAll_append_no_hit _ _ _ _ _ (fun c hc => (isoChars_class dt.wall c hc).1)]
  congr 1
  by_cases h0 : dt.offUs = 0
  · rw [if_pos h0, h0]
    rw [show offsetChars 0 = ('+' :: ['0', '0', ':', '0', '0']) ++ ([] : List Char)
      from rfl]
    rw [replaceAll_hit]
    rfl
  · rw [if_neg h0]
    rw [offsetChars_whole_minute _ hmin hrange]
    by_cases hneg : dt.offUs < 0
    · rw [if_pos hneg]
      rw [replaceAll_cons_ne _ _ _ _ _ (by decide)]
      rw [replaceAll_of_no_hit _ _ _ _ (by
        rw [List.forall_mem_append, List.forall_mem_cons]
        refine ⟨?_, by decide, ?_⟩ <;>
          · intro x hx
            simp only [pad2, List.mem_cons, List.not_mem_nil, or_false] at hx
            rcases hx with rfl | rfl <;>
              exact (isDigitCh_ne _ (isDigitCh_digitChar _)).1)]
    · rw [if_neg hneg]
      have hhm : dt.offUs.natAbs / 3600000000 < 100 := by omega
      have hmmb : dt.offUs.natAbs / 60000000 % 60 < 100 := by omega
      rw [replaceAll_head_no_match _ _ _ _ ?hpre ?hfree]
      case hfree =>
        rw [List.forall_mem_append, List.forall_mem_cons]
        refine ⟨?_, by decide, ?_⟩ <;>
          · intro x hx
            simp only [pad2, List.mem_cons, List.not_mem_nil, or_false] at hx
            rcases hx with rfl | rfl <;>
              exact (isDigitCh_ne _ (isDigitCh_digitChar _)).1
      case hpre =>
        have habs : dt.offUs.natAbs ≠ 0 := by omega
        unfold pad2
        rw [show (([digitChar (dt.offUs.natAbs / 3600000000 / 10),
            digitChar (dt.offUs.natAbs / 3600000000)] ++
            ':' :: [digitChar (dt.offUs.natAbs / 60000000 % 60 / 10),
            digitChar (dt.offUs.natAbs / 60000000 % 60)]) : List Char)
          = [digitChar (dt.offUs.natAbs / 3600000000 / 10),
             digitChar (dt.offUs.natAbs / 3600000000), ':',
             digitChar (dt.offUs.natAbs / 60000000 % 60 / 10),
             digitChar (dt.offUs.natAbs / 60000000 % 60)] from rfl]
        rw [isPrefixOf_cons_cons, isPrefixOf_cons_cons, isPrefixOf_cons_cons,
          isPrefixOf_cons_cons, isPrefixOf_cons_cons]
        rw [Bool.eq_false_iff]
        intro hall
        simp only [Bool.and_eq_true, beq_iff_eq] at hall
        obtain ⟨e1, e2, -, e3, e4, -⟩ := hall
        unfold digitChar at e1 e2 e3 e4
        have f1 := (digitChar_eq_zero_iff _ (Nat.mod_lt _ (by norm_num))).mp e1.symm
        have f2 := (digitChar_eq_zero_iff _ (Nat.mod_lt _ (by norm_num))).mp e2.symm
        have f3 := (digitChar_eq_zero_iff _ (Nat.mod_lt _ (by norm_num))).mp e3.symm
        have f4 := (digitChar_eq_zero_iff _ (Nat.mod_lt _ (by norm_num))).mp e4.symm
        omega

end Suretime

namespace Suretime

/-- Class facts for the full aware isoformat output. -/
theorem isoFullChars_class (dt : PyDatetime) (hmin : dt.offUs % 60000000 = 0)
    (hrange : dt.offUs.natAbs < 86400000000) :
    ∀ c ∈ isoFullChars dt,
      ¬ c = '[' ∧ ¬ c = ']' ∧ isSpaceCh c = false ∧ ¬ c = ',' ∧ ¬ c = ' ' := by
  rw [isoFullChars_eq dt hmin hrange]
  rw [List.forall_mem_append]
  constructor
  · intro c hc
    exact (isoChars_class dt.wall c hc).2.2
  · split
    · intro c hc
      simp only [List.mem_singleton] at hc
      subst hc
      exact ⟨by decide, by decide, by decide, by decide, by decide⟩
    · intro c hc
      exact (offsetChars_class dt.offUs c hc).2

/-- The `Z`/strip/space/comma normalization inside `parse` recovers the
plain `isoformat` text with an explicit numeric offset. -/
theorem normalizeForParse (dt : PyDatetime) (hmin : dt.offUs % 60000000 = 0)
    (hrange : dt.offUs.natAbs < 86400000000) :
    replaceAll ',' [] ['.'] (replaceAll ' ' [] ['T']
        (pyStrip (replaceAll 'Z' [] ['+', '0', '0', ':', '0', '0']
          (isoFullChars dt ++ [' ']))))
      = isoChars dt.wall ++ offsetChars dt.offUs := by
  rw [isoFullChars_eq dt hmin hrange]
  have hZdate : ∀ c ∈ isoChars dt.wall, ¬ c = 'Z' :=
    fun c hc => (isoChars_class dt.wall c hc).2.1
  have hClsI := isoChars_class dt.wall
  have hClsO := offsetChars_class dt.offUs
  by_cases h0 : dt.offUs = 0
  · rw [if_pos h0]
    rw [List.append_assoc, replaceAll_append_no_hit _ _ _ _ _ hZdate]
    rw [show (['Z'] ++ [' '] : List Char) = ('Z' :: []) ++ [' '] from rfl,
      replaceAll_hit, replaceAll_cons_ne _ _ _ _ _ (by decide), replaceAll_nil]
    rw [← List.append_assoc]
    rw [pyStrip_append_space _ (by
      rw [List.forall_mem_append]
      refine ⟨fun c hc => (hClsI c hc).2.2.2.2.1, ?_⟩
      intro c hc
      fin_cases hc <;> decide)]
    rw [replaceAll_of_no_hit ' ' [] ['T'] _ (by
      rw [List.forall_mem_append]
      refine ⟨fun c hc => (hClsI c hc).2.2.2.2.2.2, ?_⟩
      intro c hc
      fin_cases hc <;> decide)]
    rw [replaceAll_of_no_hit ',' [] ['.'] _ (by
      rw [List.forall_mem_append]
      refine ⟨fun c hc => (hClsI c hc).2.2.2.2.2.1, ?_⟩
      intro c hc
      fin_cases hc <;> decide)]
    rw [h0]
    rfl
  · rw [if_neg h0]
    rw [replaceAll_of_no_hit 'Z' [] _ _ (by
      rw [List.forall_mem_append, List.forall_mem_append]
      exact ⟨⟨hZdate, fun c hc => (hClsO c hc).1⟩,
        by intro c hc; fin_cases hc; decide⟩)]
    rw [pyStrip_append_space _ (by
      rw [List.forall_mem_append]
      exact ⟨fun c hc => (hClsI c hc).2.2.2.2.1,
        fun c hc => (hClsO c hc).2.2.2.1⟩)]
    rw [replaceAll_of_no_hit ' ' [] ['T'] _ (by
      rw [List.forall_mem_append]
      exact ⟨fun c hc => (hClsI c hc).2.2.2.2.2.2,
        fun c hc => (hClsO c hc).2.2.2.2.2⟩)]
    rw [replaceAll_of_no_hit ',' [] ['.'] _ (by
      rw [List.forall_mem_append]
      exact ⟨fun c hc => (hClsI c hc).2.2.2.2.2.1,
        fun c hc => (hClsO c hc).2.2.2.2.1⟩)]

end Suretime

namespace Suretime

theorem dropWhile_append_front (p : Char → Bool) (c : Char) (a b : List Char)
    (hc : p c = false) : ((c :: a) ++ b).dropWhile p = (c :: a) ++ b := by
  rw [List.cons_append, List.dropWhile_cons, if_neg (by simp [hc])]

theorem takeWhile_append_stop (p : Char → Bool) (a : List Char) (x : Char)
    (b : List Char) (ha : ∀ c ∈ a, p c = true) (hx : p x = false) :
    (a ++ x :: b).takeWhile p = a := by
  induction a with
  | nil => simp [List.takeWhile_cons, hx]
  | cons c rest ih =>
    rw [List.cons_append, List.takeWhile_cons, if_pos (ha c (by simp))]
    rw [ih (fun c hc => ha c (List.mem_cons_of_mem _ hc))]

theorem zoneClassChar_ne (c : Char) (h : zoneClassChar c = true) :
    ¬ c = '[' ∧ ¬ c = ']' := by
  constructor
  · intro he
    subst he
    exact absurd h (by decide)
  · intro he
    subst he
    exact absurd h (by decide)

/-- `astimezone` succeeds and lands on the same instant whenever the UTC
conversion and the target-zone conversion stay in Python's datetime
range. -/
theorem astimezone_ok (w : Wall) (off : Int) (z : ZoneInfo)
    (hr1 : 1 ≤ (wallUs w - off) / usPerDay ∧ (wallUs w - off) / usPerDay ≤ 3652059)
    (hr2 : 1 ≤ (wallUs w - off + z.offAt (wallUs w - off) * 1000000) / usPerDay ∧
      (wallUs w - off + z.offAt (wallUs w - off) * 1000000) / usPerDay ≤ 3652059) :
    ∃ r, astimezone ⟨w, off⟩ z = some r ∧ utcUs r.1 = wallUs w - off ∧ r.2 = z := by
  have hsub : wallUs w + -off = wallUs w - off := by ring
  have h1 : addUs w (-off)
      = some (wallOfParts ((wallUs w + -off) / usPerDay).toNat
          ((wallUs w + -off) % usPerDay).toNat) := by
    unfold addUs
    rw [if_pos (by rw [hsub]; exact hr1)]
  unfold astimezone
  rw [h1]
  simp only
  set uw := wallOfParts ((wallUs w + -off) / usPerDay).toNat
    ((wallUs w + -off) % usPerDay).toNat with huw
  have huwUs : wallUs uw = wallUs w - off := by
    have h2 := addUs_wallUs w (-off) uw h1
    omega
  rw [huwUs]
  have h2 : addUs uw (z.offAt (wallUs w - off) * 1000000)
      = some (wallOfParts
          ((wallUs uw + z.offAt (wallUs w - off) * 1000000) / usPerDay).toNat
          ((wallUs uw + z.offAt (wallUs w - off) * 1000000) % usPerDay).toNat) := by
    unfold addUs
    rw [if_pos (by rw [huwUs]; exact hr2)]
  rw [h2]
  refine ⟨_, rfl, ?_, rfl⟩
  have h3 := addUs_wallUs _ _ _ h2
  unfold utcUs
  simp only
  omega

end Suretime

namespace Suretime

theorem dropWhile_append_free (p : Char → Bool) (a b : List Char)
    (hne : ¬ a = []) (ha : ∀ c ∈ a, p c = false) :
    (a ++ b).dropWhile p = a ++ b := by
  cases a with
  | nil => exact absurd rfl hne
  | cons c t => exact dropWhile_append_front p c t b (ha c (by simp))

theorem isoChars_ne_nil (w : Wall) : ¬ isoChars w = [] := by
  unfold isoChars pad4
  simp

end Suretime

/-- C2 (amended): for a zoned datetime with valid fields, a whole-minute
offset, and a zone key drawn from the regex's character class, whose UTC
instant and its re-conversion into the looked-up zone stay inside Python's
datetime range, `ZonedDatetime.parse` applied to `iso_with_zone` succeeds,
denotes the same instant at microsecond precision, and carries the zone the
database returns for `str(zone)` — the original zone key unless it is
`"UTC"`, which comes back as `"Etc/UTC"`. -/
theorem C2_parse_roundtrip_amended (db : String → Option Suretime.ZoneInfo)
    (z : Suretime.ZonedDatetime) (zp : Suretime.ZoneInfo)
    (hw : Suretime.ValidWall z.dt.wall)
    (hmin : z.dt.offUs % 60000000 = 0)
    (hrange : z.dt.offUs.natAbs < 86400000000)
    (hkey0 : ¬ (Suretime.zoneKeyFix z.zone.key).data = [])
    (hkeyC : ∀ c ∈ (Suretime.zoneKeyFix z.zone.key).data,
      Suretime.zoneClassChar c = true)
    (hdb : db (Suretime.zoneKeyFix z.zone.key) = some zp)
    (hr1 : 1 ≤ Suretime.utcUs z.dt / Suretime.usPerDay ∧
      Suretime.utcUs z.dt / Suretime.usPerDay ≤ 3652059)
    (hr2 : 1 ≤ (Suretime.utcUs z.dt + zp.offAt (Suretime.utcUs z.dt) * 1000000) /
        Suretime.usPerDay ∧
      (Suretime.utcUs z.dt + zp.offAt (Suretime.utcUs z.dt) * 1000000) /
        Suretime.usPerDay ≤ 3652059) :
    ∃ dt', Suretime.parseZoned db (Suretime.isoWithZone z) = .ok (dt', zp) ∧
      Suretime.utcUs dt' = Suretime.utcUs z.dt := by
  have hclsF := Suretime.isoFullChars_class z.dt hmin hrange
  have hneF : ¬ Suretime.isoFullChars z.dt = [] := by
    rw [Suretime.isoFullChars_eq z.dt hmin hrange]
    intro h
    exact Suretime.isoChars_ne_nil z.dt.wall (List.append_eq_nil.mp h).1
  have hsub : Suretime.utcUs z.dt = Suretime.wallUs z.dt.wall - z.dt.offUs := rfl
  rw [hsub] at hr1 hr2
  obtain ⟨r, hr, hrUs, hrz⟩ := Suretime.astimezone_ok z.dt.wall z.dt.offUs zp hr1 hr2
  have heq : Suretime.parseZoned db (Suretime.isoWithZone z)
      = Except.ok (r.1, zp) := by
    unfold Suretime.parseZoned Suretime.isoWithZone
    generalize hK : (Suretime.zoneKeyFix z.zone.key).data = K at *
    generalize hB : Suretime.isoFullChars z.dt = B at *
    simp only []
    rw [List.append_assoc B (' ' :: '[' :: K) [']']]
    rw [List.cons_append ' ' ('[' :: K) [']']]
    rw [List.cons_append '[' K [']']]
    rw [Suretime.dropWhile_append_free (fun c => decide (c = ' ')) B
      (' ' :: ('[' :: (K ++ [']']))) hneF
      (fun c hc => by simp [(hclsF c hc).2.2.2.2])]
    rw [List.append_cons B ' ' ('[' :: (K ++ [']']))]
    rw [Suretime.takeWhile_append_stop (fun c => decide ¬ c = '[') (B ++ [' ']) '['
      (K ++ [']'])
      (by
        intro c hc
        rcases List.mem_append.mp hc with hc | hc
        · simp [(hclsF c hc).1]
        · simp only [List.mem_singleton] at hc
          subst hc
          decide)
      (by decide)]
    rw [List.drop_left (B ++ [' ']) ('[' :: (K ++ [']']))]
    simp only []
    rw [Suretime.takeWhile_append_stop (fun c => decide ¬ c = ']') K ']' []
      (fun c hc => by simp [(Suretime.zoneClassChar_ne c (hkeyC c hc)).2])
      (by decide)]
    rw [List.drop_left K [']']]
    simp only []
    rw [if_neg (fun hcon => by
      rcases hcon with h | h | h | h
      · simp at h
      · exact hkey0 (List.length_eq_zero.mp h)
      · exact h (List.all_eq_true.mpr hkeyC)
      · exact h rfl)]
    rw [← hB, Suretime.normalizeForParse z.dt hmin hrange]
    rw [Suretime.parseIsoChars_round _ _ hw hmin hrange]
    simp only []
    rw [← hK]
    rw [show String.mk (Suretime.zoneKeyFix z.zone.key).data
        = Suretime.zoneKeyFix z.zone.key from rfl]
    rw [hdb]
    simp only []
    rw [hr]
    simp only []
    rw [← hrz]
  exact ⟨r.1, heq, by rw [hrUs]; rfl⟩

namespace Suretime

/-- A UTC `ZoneInfo` as the original zone of the C2 counterexample fixture. -/
def ziUTCc2 : ZoneInfo := ⟨"UTC", fun _ => 0⟩

/-- The `Etc/UTC` alias object the zone database returns. -/
def ziEtcUTCc2 : ZoneInfo := ⟨"Etc/UTC", fun _ => 0⟩

/-- A two-entry zone database holding both UTC aliases. -/
def dbC2 : String → Option ZoneInfo :=
  fun s => if s = "Etc/UTC" then some ziEtcUTCc2
    else if s = "UTC" then some ziUTCc2 else none

/-- A `ZonedDatetime` tagged with the zone keyed `"UTC"`. -/
def zC2 : ZonedDatetime := ⟨⟨⟨2021, 3, 4, 5, 6, 7, 123456⟩, 0⟩, ziUTCc2, none⟩

end Suretime

/-- C2 counterexample: for the zone keyed `"UTC"`, the round trip through
`iso_with_zone` and `parse` preserves the instant (same UTC microsecond
timestamp) but not the zone: `iso_with_zone` renders the key as
`"Etc/UTC"`, so the parsed result carries the database's `Etc/UTC` entry,
whose key differs from the original zone's key `"UTC"`. -/
theorem C2_counterexample :
    Suretime.parseZoned Suretime.dbC2 (Suretime.isoWithZone Suretime.zC2)
        = Except.ok (⟨⟨2021, 3, 4, 5, 6, 7, 123456⟩, 0⟩, Suretime.ziEtcUTCc2) ∧
      Suretime.utcUs ⟨⟨2021, 3, 4, 5, 6, 7, 123456⟩, 0⟩
          = Suretime.utcUs Suretime.zC2.dt ∧
      ¬ Suretime.ziEtcUTCc2.key = Suretime.zC2.zone.key :=
  ⟨by rfl, by rfl, by decide⟩

namespace Suretime

/-- An Asia/Kabul `ZoneInfo` (UTC+04:30) for the C2 witness. -/
def ziKabulW : ZoneInfo := ⟨"Asia/Kabul", fun _ => 16200⟩

/-- A one-entry zone database for the C2 witness. -/
def dbW2 : String → Option ZoneInfo :=
  fun s => if s = "Asia/Kabul" then some ziKabulW else none

/-- A `ZonedDatetime` in Asia/Kabul for the C2 witness. -/
def zW2 : ZonedDatetime :=
  ⟨⟨⟨2021, 3, 4, 5, 6, 7, 123456⟩, 16200000000⟩, ziKabulW, none⟩

end Suretime

/-- Witness instantiating the C2 round-trip theorem on a concrete
Asia/Kabul datetime. -/
theorem C2_parse_roundtrip_amended_witness :
    ∃ dt', Suretime.parseZoned Suretime.dbW2 (Suretime.isoWithZone Suretime.zW2)
        = .ok (dt', Suretime.ziKabulW) ∧
      Suretime.utcUs dt' = Suretime.utcUs Suretime.zW2.dt :=
  C2_parse_roundtrip_amended Suretime.dbW2 Suretime.zW2 Suretime.ziKabulW
    (by decide) (by decide) (by decide) (by decide) (by decide) (by rfl)
    (by decide) (by decide)
